import Mathlib

set_option maxHeartbeats 1000000

/-!
Shallow embedding of src/compiler/aarch64/codegen/OMRMachine.cpp — the local
register-assignment core of the AArch64 backend code generator — together with
theorems settling the specified properties of its operations.

Machine state is modelled explicitly: the register file is a map from register
numbers to physical-register records, virtual registers and spill slots are maps
from identifiers to records, and every instruction or Spill Arena action emitted
by the allocator is recorded as an event.  The instruction stream is a list whose
head is the current instruction and whose tail follows the prev links.

Conventions for parts of the program that live outside this file:
* The register-number enumeration header is not part of the source tree; the
  dense numbering below is modelled from the spec (contiguous GPR block x0..x29,
  then lr, sp, xzr, then the FPR block v0..v31, then the SpilledReg sentinel).
* Use counts are the spec's non-negative integers, modelled as Nat.
* Fatal assertions and null-pointer dereferences in the source are modelled by
  returning none.
-/

inductive RegState where
  | Free
  | Unlatched
  | Assigned
  | Blocked
  | Locked
deriving DecidableEq

inductive RegKind where
  | GPR
  | FPR
deriving DecidableEq

/-- A physical register: immutable kind plus mutable weight, state, back-pointer
to the assigned virtual register, and the opaque flags bitfield. -/
structure RealReg where
  kind : RegKind
  weight : Nat
  state : RegState
  assignedReg : Option Nat
  flags : Nat
deriving DecidableEq

/-- A virtual register, with the attributes the allocator reads and writes.
The pinning-array handle carries no allocator-visible state and is omitted. -/
structure VirtReg where
  kind : RegKind
  assignedReal : Option Nat
  totalUseCount : Nat
  futureUseCount : Nat
  outOfLineUseCount : Nat
  backingStorage : Option Nat
  containsInternalPointer : Bool
  containsCollectedReference : Bool
deriving DecidableEq

/-- A spill slot (TR_BackingStore); only the spill-depth mark is allocator state. -/
structure Slot where
  maxSpillDepth : Nat
deriving DecidableEq

inductive Mnemonic where
  | label
  | proc
  | other
deriving DecidableEq

/-- An instruction as seen by the allocator: opcode class, the refsRegister
predicate over virtual-register ids, and — for label instructions — whether the
label symbol isStartOfColdInstructionStream. -/
structure Instr where
  op : Mnemonic
  refs : Nat → Bool
  startOfCold : Bool

/-- Observable actions: spliced instructions and Spill Arena releases. -/
inductive Event where
  | load : RegKind → Nat → Nat → Event        -- ldrimmx / vldrimmd : register, slot
  | store : RegKind → Nat → Nat → Event       -- strimmx / vstrimmd : register, slot
  | freeSpillEv : Nat → Nat → Event           -- cg->freeSpill : slot, size
  | eor : Nat → Nat → Nat → Event             -- eorx target, a, b
  | orrMov : Nat → Nat → Event                -- orrx target, xzr, source (GPR move)
  | fmovd : Nat → Nat → Event                 -- fmovd target, source (FPR move)
deriving DecidableEq

/-- The phase-context predicates the allocator consumes from the code generator. -/
structure CG where
  disableOOL : Bool
  isOutOfLineColdPath : Bool
  isOutOfLineHotPath : Bool
  isFreeSpillListLocked : Bool

/-- The allocator context: register file, virtual registers, spill slots, the
two bookkeeping lists, the Spill Arena's supply of slot identifiers, and the
event trace. -/
structure MachineState where
  file : Nat → RealReg
  virts : Nat → VirtReg
  slots : Nat → Slot
  spilledRegisterList : List Nat
  firstTimeLiveOOLRegisterList : List Nat
  freshSlots : List Nat
  events : List Event

/-- Pointwise map update. -/
def upd {α : Type} (f : Nat → α) (i : Nat) (a : α) : Nat → α :=
  fun j => if j = i then a else f j

def updFile (s : MachineState) (i : Nat) (r : RealReg) : MachineState :=
  { s with file := upd s.file i r }

def updVirt (s : MachineState) (v : Nat) (vr : VirtReg) : MachineState :=
  { s with virts := upd s.virts v vr }

def updVirtAssigned (s : MachineState) (v : Nat) (p : Option Nat) : MachineState :=
  updVirt s v { s.virts v with assignedReal := p }

def updVirtBacking (s : MachineState) (v : Nat) (b : Option Nat) : MachineState :=
  updVirt s v { s.virts v with backingStorage := b }

def setMaxSpillDepth (s : MachineState) (loc d : Nat) : MachineState :=
  { s with slots := upd s.slots loc ⟨d⟩ }

def pushEvent (s : MachineState) (e : Event) : MachineState :=
  { s with events := s.events ++ [e] }

def pushEvents (s : MachineState) (es : List Event) : MachineState :=
  { s with events := s.events ++ es }

/- Register numbering, modelled from the spec (the enumeration header is not in
src/): NoReg = 0; x0..x29 are 1..30; lr = 31; sp = 32; xzr = 33; v0..v31 are
34..65; SpilledReg = 66; NumRegisters = 67. -/

def NoReg : Nat := 0
def FirstGPR : Nat := 1
def lastX : Nat := 30          -- x29
def LastAssignableGPR : Nat := 30
def lrReg : Nat := 31          -- x30 is used as LR
def LastGPR : Nat := 31
def spReg : Nat := 32
def xzrReg : Nat := 33
def FirstFPR : Nat := 34        -- v0
def LastFPR : Nat := 65         -- v31
def SpilledReg : Nat := 66
def NumRegisters : Nat := 67

/-- The window scanned by findBestFreeRegister for a kind. -/
def kindFindFirst : RegKind → Nat
  | .GPR => FirstGPR
  | .FPR => FirstFPR

def kindFindLast : RegKind → Nat
  | .GPR => LastAssignableGPR
  | .FPR => LastFPR

/-- The window scanned by freeBestRegister's candidate collection. -/
def kindEvictFirst : RegKind → Nat
  | .GPR => FirstGPR
  | .FPR => FirstFPR

def kindEvictLast : RegKind → Nat
  | .GPR => LastGPR
  | .FPR => LastFPR

/-- initializeRegisterFile (source lines 752-1149): every constructed register —
x0..x29, lr, sp, xzr, v0..v31 — is built with weight 0 and state Free; NoReg and
SpilledReg hold no register.  (The thirty identical GPR constructions and the
thirty-two identical FPR constructions are collapsed by range; lr, sp and xzr
are kept explicit, quoting source lines 937-956.) -/
def initializeRegisterFile : Nat → Option RealReg := fun i =>
  if i = NoReg then none
  else if i = SpilledReg then none
  else if FirstGPR ≤ i ∧ i ≤ lastX then some ⟨.GPR, 0, .Free, none, 0⟩
  else if i = lrReg then some ⟨.GPR, 0, .Free, none, 0⟩   -- x30 is used as LR: state Free
  else if i = spReg then some ⟨.GPR, 0, .Free, none, 0⟩   -- SP: state Free
  else if i = xzrReg then some ⟨.GPR, 0, .Free, none, 0⟩  -- XZR: state Free
  else if FirstFPR ≤ i ∧ i ≤ LastFPR then some ⟨.FPR, 0, .Free, none, 0⟩
  else none

/-- Whether a register can be handed out by findBestFreeRegister. -/
def pickable (r : RealReg) (considerUnlatched : Bool) : Prop :=
  r.state = .Free ∨ (considerUnlatched = true ∧ r.state = .Unlatched)

instance (r : RealReg) (cu : Bool) : Decidable (pickable r cu) := by
  unfold pickable; infer_instance

/-- The scan loop of findBestFreeRegister (source lines 62-74): ascending scan
of cnt registers starting at index i, keeping the strictly lightest candidate;
bestWeightSoFar starts at 0xffffffff. -/
def fbfrGo (file : Nat → RealReg) (cu : Bool) : Nat → Nat → Option Nat → Nat → Option Nat
  | _, 0, best, _ => best
  | i, cnt + 1, best, bw =>
    if pickable (file i) cu ∧ (file i).weight < bw then
      fbfrGo file cu (i + 1) cnt (some i) (file i).weight
    else
      fbfrGo file cu (i + 1) cnt best bw

/-- findBestFreeRegister (source lines 42-81). Returns the chosen register
number (if any) and the possibly updated state: a winner found in state
Unlatched has its back-pointer cleared and is normalised to Free. -/
def findBestFreeRegister (s : MachineState) (rk : RegKind) (considerUnlatched : Bool) :
    Option Nat × MachineState :=
  match fbfrGo s.file considerUnlatched (kindFindFirst rk)
      (kindFindLast rk + 1 - kindFindFirst rk) none 4294967295 with
  | none => (none, s)
  | some i =>
    if (s.file i).state = .Unlatched then
      (some i, updFile s i { s.file i with assignedReg := none, state := .Free })
    else
      (some i, s)

/-- refsRegister lifted to candidate entries (a null candidate is referenced by
no instruction). -/
def refsCand (ins : Instr) (c : Option Nat) : Bool :=
  match c with
  | some u => ins.refs u
  | none => false

/-- The inner removal loop of freeBestRegister's backward walk (source lines
138-144): one ascending pass; a referenced candidate is overwritten by the
current last candidate and the array shrinks by one; the scan index advances
regardless, so the swapped-in element is not re-examined at this instruction.
The fuel starts at the list length, which bounds the number of iterations. -/
def sweepGo (ins : Instr) : Nat → Nat → List (Option Nat) → List (Option Nat)
  | 0, _, cands => cands
  | fuel + 1, i, cands =>
    if h : i < cands.length then
      if refsCand ins cands[i] then
        sweepGo ins fuel (i + 1)
          ((cands.set i (cands.getLast
            (List.length_pos.mp (Nat.lt_of_le_of_lt (Nat.zero_le i) h)))).dropLast)
      else
        sweepGo ins fuel (i + 1) cands
    else cands

def sweep (ins : Instr) (cands : List (Option Nat)) : List (Option Nat) :=
  sweepGo ins cands.length 0 cands

/-- The backward walk of freeBestRegister (source lines 132-146): repeat the
sweep along the prev links while more than one candidate remains and the
current instruction is neither a label nor a proc. -/
def walkLoop : List Instr → List (Option Nat) → List (Option Nat)
  | [], cands => cands
  | ins :: rest, cands =>
    if cands.length > 1 ∧ ins.op ≠ Mnemonic.label ∧ ins.op ≠ Mnemonic.proc then
      walkLoop rest (sweep ins cands)
    else cands

/-- Candidate collection of freeBestRegister (source lines 122-129): the
back-pointer of every Assigned register in the window, in ascending order. -/
def collectCandidates (file : Nat → RealReg) : Nat → Nat → List (Option Nat)
  | _, 0 => []
  | i, cnt + 1 =>
    if (file i).state = .Assigned then
      (file i).assignedReg :: collectCandidates file (i + 1) cnt
    else
      collectCandidates file (i + 1) cnt

/-- Reading the victim pair out of the finished walk (source lines 147 and
150): the virtual in candidate slot 0 and its currently assigned real register;
none models the null dereferences on an empty candidate array or a missing
back-pointer. -/
def victimFromWalk (s : MachineState) (w : List (Option Nat)) : Option (Nat × Nat) :=
  match w with
  | [] => none
  | none :: _ => none
  | some r :: _ =>
    match (s.virts r).assignedReal with
    | some b => some (b, r)
    | none => none

/-- Victim selection of freeBestRegister (source lines 100-148): with a forced
register the displaced virtual is its current occupant; otherwise collect the
Assigned candidates, run the backward walk, and take slot 0.  Returns
(victim real register, virtual register to spill); none models the
all-blocked fatal assertion and the null dereferences on a missing
back-pointer. -/
def fbrVictim (s : MachineState) (stream : List Instr) (rk : RegKind) (forced : Option Nat) :
    Option (Nat × Nat) :=
  match forced with
  | some b =>
    match (s.file b).assignedReg with
    | some r => some (b, r)
    | none => none
  | none =>
    victimFromWalk s (walkLoop stream
      (collectCandidates s.file (kindEvictFirst rk) (kindEvictLast rk + 1 - kindEvictFirst rk)))

/-- cg->allocateSpill: the Spill Arena hands out the next slot identifier of
its supply (the arena itself never fails; an exhausted supply is a model
artifact excluded by the theorems' hypotheses). -/
def allocateSpill (s : MachineState) : Option (Nat × MachineState) :=
  match s.freshSlots with
  | [] => none
  | l :: rest => some (l, { s with freshSlots := rest })

/-- cg->allocateInternalPointerSpill: a pinning-array-aware slot from the same
arena; the slot species carries no allocator-visible state. -/
def allocateInternalPointerSpill (s : MachineState) : Option (Nat × MachineState) :=
  match s.freshSlots with
  | [] => none
  | l :: rest => some (l, { s with freshSlots := rest })

/-- Spill-slot acquisition of freeBestRegister (source lines 155-202): reuse
the victim's existing slot when OOL is enabled, the allocator is inside an OOL
hot or cold path, and backing storage exists; otherwise allocate (for a GPR,
internal pointers get a pinning-array-aware slot). -/
def fbrAcquire (cg : CG) (s : MachineState) (rk : RegKind) (r : Nat) :
    Option (Nat × MachineState) :=
  match rk with
  | .GPR =>
    if ¬ cg.disableOOL ∧ (cg.isOutOfLineColdPath ∨ cg.isOutOfLineHotPath) ∧
        (s.virts r).backingStorage.isSome then
      match (s.virts r).backingStorage with
      | some loc => some (loc, s)
      | none => none
    else if ¬ (s.virts r).containsInternalPointer then
      allocateSpill s
    else
      allocateInternalPointerSpill s
  | .FPR =>
    if ¬ cg.disableOOL ∧ (cg.isOutOfLineColdPath ∨ cg.isOutOfLineHotPath) ∧
        (s.virts r).backingStorage.isSome then
      match (s.virts r).backingStorage with
      | some loc => some (loc, s)
      | none => none
    else
      allocateSpill s

/-- OOL spill-depth bookkeeping of freeBestRegister (source lines 208-248):
outside the cold path push the victim onto the spilled-register list and mark
the slot (main line: depth 1; hot path: depth 2 unless the main-line mark 1 is
present); inside the cold path do not push and mark depth 3 unless a main-line
or hot-path mark is present. -/
def fbrBookkeep (cg : CG) (s : MachineState) (r loc : Nat) : MachineState :=
  if cg.disableOOL then s
  else if ¬ cg.isOutOfLineColdPath then
    let s1 := { s with spilledRegisterList := r :: s.spilledRegisterList }
    if ¬ cg.isOutOfLineHotPath then setMaxSpillDepth s1 loc 1
    else if (s1.slots loc).maxSpillDepth ≠ 1 then setMaxSpillDepth s1 loc 2
    else s1
  else
    if (s.slots loc).maxSpillDepth ≠ 1 ∧ (s.slots loc).maxSpillDepth ≠ 2 then
      setMaxSpillDepth s loc 3
    else s

/-- The register kind freeBestRegister allocates for: the virtual's kind, or
GPR when no virtual is supplied (source line 94). -/
def fbrKind (s : MachineState) (virtualRegister : Option Nat) : RegKind :=
  match virtualRegister with
  | none => RegKind.GPR
  | some u => (s.virts u).kind

/-- freeBestRegister (source lines 83-277): select a victim, acquire a spill
slot, run the OOL bookkeeping, splice the reload just before the current
instruction, and free the victim register. -/
def freeBestRegister (cg : CG) (s : MachineState) (stream : List Instr)
    (virtualRegister : Option Nat) (forced : Option Nat) : Option (Nat × MachineState) :=
  let rk := fbrKind s virtualRegister
  match fbrVictim s stream rk forced with
  | none => none
  | some (best, registerToSpill) =>
    match fbrAcquire cg s rk registerToSpill with
    | none => none
    | some (loc, s1) =>
      let s2 := updVirtBacking s1 registerToSpill (some loc)
      let s3 := fbrBookkeep cg s2 registerToSpill loc
      let s4 := pushEvent s3 (.load rk best loc)
      let s5 := updFile s4 best { s4.file best with assignedReg := none }
      let s6 := updFile s5 best { s5.file best with state := .Free }
      let s7 := updVirtAssigned s6 registerToSpill none
      some (best, s7)

/-- Store size: sizeofReferenceAddress for a GPR (8 on AArch64), 8 for an FPR. -/
def dataSize : RegKind → Nat
  | .GPR => 8
  | .FPR => 8

/-- Target-register acquisition of reverseSpillState (source lines 293-301):
keep a supplied target; otherwise pick a free register or evict, and mark the
result Assigned. -/
def rsAcquire (cg : CG) (s : MachineState) (stream : List Instr)
    (v : Nat) (targetRegister : Option Nat) : Option (Nat × MachineState) :=
  match targetRegister with
  | some t => some (t, s)
  | none =>
    match findBestFreeRegister s (s.virts v).kind false with
    | (some t, s1) => some (t, updFile s1 t { s1.file t with state := .Assigned })
    | (none, s1) =>
      match freeBestRegister cg s1 stream (some v) none with
      | none => none
      | some (t, s2) => some (t, updFile s2 t { s2.file t with state := .Assigned })

/-- reverseSpillState (source lines 279-457).  Acquire a target register when
none is supplied; take the cold-path early exit when no backing storage exists;
with OOL disabled release the slot and emit the store; otherwise run the
three-level slot-protection decision and emit the store. -/
def reverseSpillState (cg : CG) (s : MachineState) (stream : List Instr)
    (v : Nat) (targetRegister : Option Nat) : Option (Nat × MachineState) :=
  let location := (s.virts v).backingStorage
  let rk := (s.virts v).kind
  match rsAcquire cg s stream v targetRegister with
  | none => none
  | some (t, sA) =>
    if cg.isOutOfLineColdPath ∧ location = none then
      some (t, sA)
    else
      match location with
      | none => none   -- line 323 dereferences location unconditionally
      | some loc =>
        if cg.disableOOL then
          let sB := pushEvent sA (.freeSpillEv loc (dataSize rk))
          some (t, pushEvent sB (.store rk t loc))
        else
          let sB :=
            if cg.isOutOfLineColdPath then
              let isOOLentryReverseSpill : Bool :=
                match stream with
                | ins :: _ => ins.op = Mnemonic.label ∧ ins.startOfCold
                | [] => false
              if (sA.slots loc).maxSpillDepth = 3 ∨ (sA.slots loc).maxSpillDepth = 0 ∨
                  isOOLentryReverseSpill then
                let sC := if (sA.slots loc).maxSpillDepth ≠ 0 then setMaxSpillDepth sA loc 0 else sA
                let sD := pushEvent sC (.freeSpillEv loc (dataSize rk))
                if ¬ cg.isFreeSpillListLocked then updVirtBacking sD v none else sD
              else sA
            else if cg.isOutOfLineHotPath then
              let sC := { sA with
                spilledRegisterList := sA.spilledRegisterList.filter (fun x => x != v) }
              let sD := setMaxSpillDepth sC loc 0
              -- source lines 413-414: the depth was just reset, so this test
              -- reads the new value
              if (sD.slots loc).maxSpillDepth = 2 then
                let sE := pushEvent sD (.freeSpillEv loc (dataSize rk))
                if ¬ cg.isFreeSpillListLocked then updVirtBacking sE v none else sE
              else sD
            else
              let sC := { sA with
                spilledRegisterList := sA.spilledRegisterList.filter (fun x => x != v) }
              let sD := setMaxSpillDepth sC loc 0
              let sE := pushEvent sD (.freeSpillEv loc (dataSize rk))
              if ¬ cg.isFreeSpillListLocked then updVirtBacking sE v none else sE
          some (t, pushEvent sB (.store rk t loc))

/-- The out-of-line use count after the conditional decrement taken in the OOL
cold path (source lines 1318-1319). -/
def oolDec (cold : Bool) (n : Nat) : Nat :=
  if cold then n - 1 else n

/-- decFutureUseCountAndUnlatch (source lines 1305-1349): decrement the future
use count (and the out-of-line use count inside the OOL cold path); the failed
use-count invariant assertion and the null dereference on an unassigned
virtual are modelled as none; unlatch exactly when the future use count reached
0 or, in the OOL hot path, equals the out-of-line use count. -/
def decFutureUseCountAndUnlatch (cg : CG) (s : MachineState) (v : Nat) : Option MachineState :=
  let F := (s.virts v).futureUseCount - 1
  let O := oolDec cg.isOutOfLineColdPath (s.virts v).outOfLineUseCount
  let s2 := updVirt s v { s.virts v with futureUseCount := F, outOfLineUseCount := O }
  if F < O then none
  else if F = 0 ∨ (cg.isOutOfLineHotPath ∧ F = O) then
    match (s.virts v).assignedReal with
    | none => none
    | some p =>
      let s3 := updFile s2 p { s2.file p with assignedReg := none }
      let s4 := updFile s3 p { s3.file p with state := .Unlatched }
      some (updVirtAssigned s4 v none)
  else some s2

/-- The first-time-live list push (source lines 485-488 and the analogous sites
in coerceRegisterAssignment). -/
def coldPush (cg : CG) (s : MachineState) (v : Nat) : MachineState :=
  if ¬ cg.disableOOL ∧ cg.isOutOfLineColdPath then
    { s with firstTimeLiveOOLRegisterList := v :: s.firstTimeLiveOOLRegisterList }
  else s

/-- assignOneRegister (source lines 459-507).  Tracing and the register
assignment flags carry no allocation state and are omitted. -/
def assignOneRegister (cg : CG) (s : MachineState) (stream : List Instr) (v : Nat) :
    Option (Nat × MachineState) :=
  let rk := (s.virts v).kind
  match (s.virts v).assignedReal with
  | none =>
    let step : Option (Nat × MachineState) :=
      if (s.virts v).totalUseCount ≠ (s.virts v).futureUseCount then
        reverseSpillState cg s stream v none
      else
        match findBestFreeRegister s rk true with
        | (some a, s1) => some (a, coldPush cg s1 v)
        | (none, s1) =>
          match freeBestRegister cg s1 stream (some v) none with
          | none => none
          | some (a, s2) => some (a, coldPush cg s2 v)
    match step with
    | none => none
    | some (a, s') =>
      let t1 := updVirtAssigned s' v (some a)
      let t2 := updFile t1 a { t1.file a with assignedReg := some v }
      let t3 := updFile t2 a { t2.file a with state := .Assigned }
      match decFutureUseCountAndUnlatch cg t3 v with
      | none => none
      | some t4 => some (a, t4)
  | some a =>
    match (s.file a).assignedReg with
    | none => none    -- TR_ASSERT_FATAL: broken back-link
    | some _ =>
      match decFutureUseCountAndUnlatch cg s v with
      | none => none
      | some s' => some (a, s')

/-- registerCopy (source lines 510-531): mov via orrx with xzr for a GPR, fmovd
for an FPR; targetReg receives sourceReg. -/
def registerCopy (rk : RegKind) (targetReg sourceReg : Nat) (s : MachineState) : MachineState :=
  match rk with
  | .GPR => pushEvent s (.orrMov targetReg sourceReg)
  | .FPR => pushEvent s (.fmovd targetReg sourceReg)

/-- registerExchange (source lines 534-556): a three-eor xor swap for GPRs (the
middle register is unused); three moves through the middle register for FPRs
(a null middle register would be dereferenced: none). -/
def registerExchange (rk : RegKind) (targetReg sourceReg : Nat) (middleReg : Option Nat)
    (s : MachineState) : Option MachineState :=
  match rk with
  | .GPR =>
    some (pushEvents s
      [.eor targetReg targetReg sourceReg,
       .eor sourceReg targetReg sourceReg,
       .eor targetReg targetReg sourceReg])
  | .FPR =>
    match middleReg with
    | none => none
    | some m =>
      some (registerCopy .FPR m sourceReg
        (registerCopy .FPR sourceReg targetReg
          (registerCopy .FPR targetReg m s)))

/-- virtualRegister->block(): modelled from the spec — pin the virtual's
current real register by marking it Blocked so the spare search cannot evict
it; a virtual with no real register is unaffected. -/
def blockVirt (s : MachineState) (v : Nat) : MachineState :=
  match (s.virts v).assignedReal with
  | some p => updFile s p { s.file p with state := .Blocked }
  | none => s

/-- virtualRegister->unblock(): modelled from the spec — restore the pinned
real register to Assigned. -/
def unblockVirt (s : MachineState) (v : Nat) : MachineState :=
  match (s.virts v).assignedReal with
  | some p => updFile s p { s.file p with state := .Assigned }
  | none => s

/-- The closing rebinding of coerceRegisterAssignment (source lines 746-749). -/
def coerceFinish (s : MachineState) (v target : Nat) : MachineState :=
  let t1 := updFile s target { s.file target with state := .Assigned }
  let t2 := updFile t1 target { t1.file target with assignedReg := some v }
  updVirtAssigned t2 v (some target)

/-- The shared tail of the unassigned-source cases of coerceRegisterAssignment
(source lines 593-604, 658-669, 722-733): reverse-spill into the target when
the virtual has been used already in reverse time, else track first-live-in-OOL;
then the closing rebinding. -/
def coerceTail (cg : CG) (s : MachineState) (stream : List Instr) (v registerNumber : Nat) :
    Option MachineState :=
  if (s.virts v).totalUseCount ≠ (s.virts v).futureUseCount then
    match reverseSpillState cg s stream v (some registerNumber) with
    | none => none
    | some (_, s') => some (coerceFinish s' v registerNumber)
  else
    some (coerceFinish (coldPush cg s v) v registerNumber)

/-- Spare-register search of the Blocked-target case (source lines 627-638):
taken when there is no current assignment or a temporary is needed; a failed
free-register search falls back to eviction with the coerced virtual blocked. -/
def coerceSpare (cg : CG) (s : MachineState) (stream : List Instr) (v : Nat)
    (currentTargetVirtual : Option Nat) (rk : RegKind) (cur : Option Nat) :
    Option (Option Nat × MachineState) :=
  if cur = none ∨ rk = RegKind.FPR then
    match findBestFreeRegister s rk false with
    | (some sp, s1) => some (some sp, s1)
    | (none, s1) =>
      let s1b := blockVirt s1 v
      match freeBestRegister cg s1b stream currentTargetVirtual none with
      | none => none
      | some (sp, s2) => some (some sp, unblockVirt s2 v)
  else some (none, s)

/-- The Blocked-target case of coerceRegisterAssignment (source lines 620-671). -/
def coerceBlocked (cg : CG) (s : MachineState) (stream : List Instr)
    (v registerNumber : Nat) (rk : RegKind) (cur : Option Nat) : Option MachineState :=
  let currentTargetVirtual := (s.file registerNumber).assignedReg
  match coerceSpare cg s stream v currentTargetVirtual rk cur with
  | none => none
  | some (spare, sA) =>
    match cur with
    | some c =>
      match currentTargetVirtual with
      | none => none   -- line 646 dereferences currentTargetVirtual
      | some u =>
        match registerExchange rk registerNumber c spare sA with
        | none => none
        | some sB =>
          let sC := updFile sB c { sB.file c with state := .Blocked }
          let sD := updFile sC c { sC.file c with assignedReg := some u }
          let sE := updVirtAssigned sD u (some c)
          some (coerceFinish sE v registerNumber)
    | none =>
      match currentTargetVirtual, spare with
      | none, _ => none   -- line 654 dereferences currentTargetVirtual
      | _, none => none   -- line 652 copies through a null spareReg
      | some u, some sp =>
        let sB := registerCopy rk registerNumber sp sA
        let sC := updFile sB sp { sB.file sp with state := .Blocked }
        let sD := updVirtAssigned sC u (some sp)
        let sE := updFile sD sp { sD.file sp with assignedReg := some u }
        coerceTail cg sE stream v registerNumber

/-- Spare-register search of the Assigned-target case (source lines 679-680):
no eviction fallback here. -/
def coerceSpareAssigned (s : MachineState) (rk : RegKind) (cur : Option Nat) :
    Option Nat × MachineState :=
  if cur = none ∨ rk = RegKind.FPR then findBestFreeRegister s rk false else (none, s)

/-- The Assigned-target case of coerceRegisterAssignment (source lines 672-736). -/
def coerceAssigned (cg : CG) (s : MachineState) (stream : List Instr)
    (v registerNumber : Nat) (rk : RegKind) (cur : Option Nat) : Option MachineState :=
  let currentTargetVirtual := (s.file registerNumber).assignedReg
  let needTemp := rk = RegKind.FPR
  let spare := (coerceSpareAssigned s rk cur).1
  let sA := (coerceSpareAssigned s rk cur).2
  match cur with
  | some c =>
    if ¬ needTemp ∨ spare.isSome then
      match currentTargetVirtual with
      | none => none   -- lines 691-692 dereference currentTargetVirtual
      | some u =>
        match registerExchange rk registerNumber c spare sA with
        | none => none
        | some sB =>
          let sC := updFile sB c { sB.file c with state := .Assigned }
          let sD := updFile sC c { sC.file c with assignedReg := some u }
          let sE := updVirtAssigned sD u (some c)
          some (coerceFinish sE v registerNumber)
    else
      match freeBestRegister cg sA stream currentTargetVirtual (some registerNumber) with
      | none => none
      | some (_, sB) =>
        let sC := registerCopy rk c registerNumber sB
        let sD := updFile sC c { sC.file c with state := .Free }
        let sE := updFile sD c { sD.file c with assignedReg := none }
        some (coerceFinish sE v registerNumber)
  | none =>
    match spare with
    | none =>
      match freeBestRegister cg sA stream currentTargetVirtual (some registerNumber) with
      | none => none
      | some (_, sB) => coerceTail cg sB stream v registerNumber
    | some sp =>
      match currentTargetVirtual with
      | none => none   -- line 718 dereferences currentTargetVirtual
      | some u =>
        let sB := registerCopy rk registerNumber sp sA
        let sC := updFile sB sp { sB.file sp with state := .Assigned }
        let sD := updFile sC sp { sC.file sp with assignedReg := some u }
        let sE := updVirtAssigned sD u (some sp)
        coerceTail cg sE stream v registerNumber

/-- coerceRegisterAssignment (source lines 558-750). -/
def coerceRegisterAssignment (cg : CG) (s : MachineState) (stream : List Instr)
    (v registerNumber : Nat) : Option MachineState :=
  let rk := (s.virts v).kind
  let cur := (s.virts v).assignedReal
  if cur = some registerNumber then some s
  else if (s.file registerNumber).state = .Free ∨ (s.file registerNumber).state = .Unlatched then
    match cur with
    | none => coerceTail cg s stream v registerNumber
    | some c =>
      let s1 := registerCopy rk c registerNumber s
      let s2 := updFile s1 c { s1.file c with state := .Free }
      let s3 := updFile s2 c { s2.file c with assignedReg := none }
      some (coerceFinish s3 v registerNumber)
  else if (s.file registerNumber).state = .Blocked then
    coerceBlocked cg s stream v registerNumber rk cur
  else if (s.file registerNumber).state = .Assigned then
    coerceAssigned cg s stream v registerNumber rk cur
  else
    -- unknown state: diagnostic only, then the closing rebinding
    some (coerceFinish s v registerNumber)

/-- takeRegisterStateSnapShot (source lines 1151-1161): record state,
back-pointer and flags of every register (the loop covers FirstGPR up to but
excluding SpilledReg; the snapshot is only ever read on that range). -/
def takeRegisterStateSnapShot (s : MachineState) : Nat → RegState × Option Nat × Nat :=
  fun i => ((s.file i).state, (s.file i).assignedReg, (s.file i).flags)

/-- The loop range of the snapshot and restore loops: FirstGPR .. NumRegisters-2. -/
def snapRange : List Nat := (List.range (LastFPR + 1 - FirstGPR)).map (fun k => FirstGPR + k)

/-- The detach step of a restore iteration (source lines 1174-1196): when the
restored state is Free, or Assigned but pointing at a different register than
the snapshot, break the stale virtual back-pointer. -/
def restoreClear (asn : Option Nat) (s2 : MachineState) (i : Nat) : MachineState :=
  if (s2.file i).state = RegState.Free then
    match (s2.file i).assignedReg with
    | some w => updVirtAssigned s2 w none
    | none => s2
  else if (s2.file i).state = RegState.Assigned then
    match (s2.file i).assignedReg with
    | some w =>
      if (s2.file i).assignedReg ≠ asn then
        if (s2.virts w).assignedReal = some i then updVirtAssigned s2 w none else s2
      else s2
    | none => s2
  else s2

/-- The rebind step of a restore iteration (source lines 1198-1203): an
Assigned register points its virtual back at itself. -/
def restoreRebind (s4 : MachineState) (i : Nat) : MachineState :=
  if (s4.file i).state = RegState.Assigned then
    match (s4.file i).assignedReg with
    | some w => updVirtAssigned s4 w (some i)
    | none => s4
  else s4

/-- The pruning step of a restore iteration (source lines 1205-1216): an
Assigned register whose virtual has no future use is freed. -/
def restorePrune (s5 : MachineState) (i : Nat) : MachineState :=
  if (s5.file i).state = RegState.Assigned then
    match (s5.file i).assignedReg with
    | some w =>
      if (s5.virts w).futureUseCount = 0 then
        let sa := updFile s5 i { s5.file i with state := RegState.Free }
        let sb := updVirtAssigned sa w none
        updFile sb i { sb.file i with assignedReg := none }
      else s5
    | none => s5
  else s5

/-- One iteration of restoreRegisterStateFromSnapShot (source lines 1169-1216).
The dereference of a null back-pointer on an Assigned register is modelled as a
skip and ruled out by the theorems' hypotheses. -/
def restoreOne (snap : Nat → RegState × Option Nat × Nat) (s : MachineState) (i : Nat) :
    MachineState :=
  let st := (snap i).1
  let asn := (snap i).2.1
  let fl := (snap i).2.2
  let s1 := updFile s i { s.file i with flags := fl }
  let s2 := updFile s1 i { s1.file i with state := st }
  let s3 := restoreClear asn s2 i
  let s4 := updFile s3 i { s3.file i with assignedReg := asn }
  restorePrune (restoreRebind s4 i) i

/-- restoreRegisterStateFromSnapShot (source lines 1163-1218). -/
def restoreRegisterStateFromSnapShot (snap : Nat → RegState × Option Nat × Nat)
    (s : MachineState) : MachineState :=
  snapRange.foldl (restoreOne snap) s

/-- Modelled from the spec: the backward walk as the claim states it — at each
visited instruction every candidate the instruction references is removed from
the candidate set; the walk stops when one candidate remains or a label or proc
is reached.  (To be compared with walkLoop, translated from the source.) -/
def claimVictimWalk : List Instr → List (Option Nat) → List (Option Nat)
  | [], cands => cands
  | ins :: rest, cands =>
    if cands.length > 1 ∧ ins.op ≠ Mnemonic.label ∧ ins.op ≠ Mnemonic.proc then
      claimVictimWalk rest (cands.filter (fun c => ! refsCand ins c))
    else cands

/-- Modelled from the spec: victim selection with the claim's removal
semantics, otherwise identical to fbrVictim. -/
def fbrVictimClaim (s : MachineState) (stream : List Instr) (rk : RegKind)
    (forced : Option Nat) : Option (Nat × Nat) :=
  match forced with
  | some b =>
    match (s.file b).assignedReg with
    | some r => some (b, r)
    | none => none
  | none =>
    victimFromWalk s (claimVictimWalk stream
      (collectCandidates s.file (kindEvictFirst rk) (kindEvictLast rk + 1 - kindEvictFirst rk)))

/-- Count of Spill Arena releases in a trace. -/
def numFreeSpills : List Event → Nat
  | [] => 0
  | Event.freeSpillEv _ _ :: es => numFreeSpills es + 1
  | _ :: es => numFreeSpills es

/-- Count of spliced store instructions in a trace. -/
def numStores : List Event → Nat
  | [] => 0
  | Event.store _ _ _ :: es => numStores es + 1
  | _ :: es => numStores es

/-- Two states agree on every virtual register's future use count. -/
def sameFuc (s s' : MachineState) : Prop :=
  ∀ u, (s'.virts u).futureUseCount = (s.virts u).futureUseCount

/-- Agreement of a restore-loop state with the snapshot base: the register
file is pointwise identical and no future use count has moved. -/
def keeps (s t : MachineState) : Prop :=
  (∀ j, t.file j = s.file j) ∧
  ∀ u, (t.virts u).futureUseCount = (s.virts u).futureUseCount

/- Concrete register files, virtual registers and machine states used to
exercise the operations on explicit inputs. -/

/-- A free GPR with weight 0 and no back-pointer. -/
def freeR : RealReg := ⟨.GPR, 0, .Free, none, 0⟩

/-- A locked GPR. -/
def lockedR : RealReg := ⟨.GPR, 0, .Locked, none, 0⟩

/-- A baseline virtual GPR with all counters 0 and no backing storage. -/
def vGPR : VirtReg := ⟨.GPR, none, 0, 0, 0, none, false, false⟩

/-- A baseline machine state: every register free, every counter zero. -/
def baseState : MachineState :=
  { file := fun _ => freeR
    virts := fun _ => vGPR
    slots := fun _ => ⟨0⟩
    spilledRegisterList := []
    firstTimeLiveOOLRegisterList := []
    freshSlots := []
    events := [] }

/-- Main-line phase context with OOL enabled. -/
def cgMain : CG := ⟨false, false, false, false⟩

/-- OOL hot-path phase context, free-spill list not locked. -/
def cgHot : CG := ⟨false, false, true, false⟩

/-- Phase context with the disable-OOL option set. -/
def cgDis : CG := ⟨true, false, false, false⟩

/-- A one-instruction stream: an ordinary instruction referencing nothing. -/
def stPlain : List Instr := [⟨.other, fun _ => false, false⟩]

/-- Registers x0, x1, x2 (numbers 1, 2, 3) assigned to virtuals 10, 11, 12. -/
def sWalk : MachineState :=
  { baseState with
    file := fun i =>
      if i = 1 then ⟨.GPR, 0, .Assigned, some 10, 0⟩
      else if i = 2 then ⟨.GPR, 0, .Assigned, some 11, 0⟩
      else if i = 3 then ⟨.GPR, 0, .Assigned, some 12, 0⟩
      else freeR
    virts := fun u =>
      if u = 10 then { vGPR with assignedReal := some 1 }
      else if u = 11 then { vGPR with assignedReal := some 2 }
      else if u = 12 then { vGPR with assignedReal := some 3 }
      else vGPR
    freshSlots := [7] }

/-- A stream whose current instruction references virtuals 10 and 12, followed
by a label. -/
def stWalk : List Instr :=
  [⟨.other, fun u => u == 10 || u == 12, false⟩, ⟨.label, fun _ => false, false⟩]

/-- Virtual 0 spilled to slot 0 whose depth mark is 2 (hot-path-defined),
sitting on the spilled-register list. -/
def sHot : MachineState :=
  { baseState with
    virts := fun u =>
      if u = 0 then { vGPR with totalUseCount := 5, futureUseCount := 3, backingStorage := some 0 }
      else vGPR
    slots := fun _ => ⟨2⟩
    spilledRegisterList := [0] }

/-- The state produced by the hot-path reverse spill of virtual 0 on sHot into
register x0 (the call succeeds, so the default never applies). -/
def sHotOut : MachineState :=
  ((reverseSpillState ⟨false, false, true, false⟩ sHot
      [⟨.other, fun _ => false, false⟩] 0 (some 1)).getD (0, baseState)).2

/-- Register x0 (number 1) assigned to virtual 0 whose future use count is 0. -/
def sDead : MachineState :=
  { baseState with
    file := fun i => if i = 1 then ⟨.GPR, 0, .Assigned, some 0, 0⟩ else freeR
    virts := fun u => if u = 0 then { vGPR with assignedReal := some 1 } else vGPR }

/-- Register x0 (number 1) assigned to virtual 0 whose future use count is 1. -/
def sLive : MachineState :=
  { baseState with
    file := fun i => if i = 1 then ⟨.GPR, 0, .Assigned, some 0, 0⟩ else freeR
    virts := fun u =>
      if u = 0 then { vGPR with assignedReal := some 1, futureUseCount := 1 } else vGPR }

/-- A register file whose only non-Locked register, x0 (number 1), is Free with
weight 0xffffffff. -/
def sHeavy : MachineState :=
  { baseState with
    file := fun i => if i = 1 then ⟨.GPR, 4294967295, .Free, none, 0⟩ else lockedR }

/-- A register file with x0 Free at weight 5 and x1 Free at weight 3, the rest
Locked. -/
def sWeights : MachineState :=
  { baseState with
    file := fun i =>
      if i = 1 then ⟨.GPR, 5, .Free, none, 0⟩
      else if i = 2 then ⟨.GPR, 3, .Free, none, 0⟩
      else lockedR }

/-- Virtual 0 never used yet in reverse time (total = future = 5), nothing
assigned; target register x1 (number 2) free. -/
def sFresh : MachineState :=
  { baseState with
    virts := fun u =>
      if u = 0 then { vGPR with totalUseCount := 5, futureUseCount := 5 } else vGPR }

/-- Virtual 0 assigned to register x0 (number 1) with future use count 5. -/
def sBound : MachineState :=
  { baseState with
    file := fun i => if i = 1 then ⟨.GPR, 0, .Assigned, some 0, 0⟩ else freeR
    virts := fun u =>
      if u = 0 then { vGPR with assignedReal := some 1, totalUseCount := 5, futureUseCount := 5 }
      else vGPR }

/-- Virtual 0 spilled to slot 4 (total 3, future 1), nothing assigned. -/
def sSpilled : MachineState :=
  { baseState with
    virts := fun u =>
      if u = 0 then { vGPR with backingStorage := some 4, totalUseCount := 3, futureUseCount := 1 }
      else vGPR }

/-- The state produced by the disable-OOL reverse spill of virtual 0 on
sSpilled into register x0 (the call succeeds, so the default never applies). -/
def sSpilledOut : MachineState :=
  ((reverseSpillState ⟨true, false, false, false⟩ sSpilled
      [⟨.other, fun _ => false, false⟩] 0 (some 1)).getD (0, baseState)).2

/-- Virtual 0 assigned to x0 (number 1) with future use count 1; decrementing
reaches 0 and must unlatch. -/
def sLastUse : MachineState :=
  { baseState with
    file := fun i => if i = 1 then ⟨.GPR, 0, .Assigned, some 0, 0⟩ else freeR
    virts := fun u =>
      if u = 0 then { vGPR with assignedReal := some 1, totalUseCount := 4, futureUseCount := 1 }
      else vGPR }

/-- The state produced by decFutureUseCountAndUnlatch on sLastUse in the main
line (the call succeeds, so the default never applies). -/
def sLastUseOut : MachineState :=
  (decFutureUseCountAndUnlatch ⟨false, false, false, false⟩ sLastUse 0).getD baseState

/-- Register x0 (number 1) assigned to virtual 9; a forced eviction victim. -/
def sForced : MachineState :=
  { baseState with
    file := fun i => if i = 1 then ⟨.GPR, 0, .Assigned, some 9, 0⟩ else freeR
    virts := fun u => if u = 9 then { vGPR with assignedReal := some 1 } else vGPR
    freshSlots := [5] }

/-- The state produced by the forced main-line eviction on sForced (the call
succeeds, so the default never applies). -/
def sForcedOut : MachineState :=
  ((freeBestRegister ⟨false, false, false, false⟩ sForced
      [⟨.other, fun _ => false, false⟩] none (some 1)).getD (0, baseState)).2

/-- The register returned by assigning virtual 0 of sFresh in the main line
(the call succeeds, so the default never applies). -/
def aFreshOut : Nat :=
  ((assignOneRegister ⟨false, false, false, false⟩ sFresh
      [⟨.other, fun _ => false, false⟩] 0).getD (0, baseState)).1

/-- The state produced by assigning virtual 0 of sFresh in the main line
(the call succeeds, so the default never applies). -/
def sFreshOut : MachineState :=
  ((assignOneRegister ⟨false, false, false, false⟩ sFresh
      [⟨.other, fun _ => false, false⟩] 0).getD (0, baseState)).2

/-- The state produced by coercing virtual 0 of sFresh into register x1
(number 2) in the main line (the call succeeds, so the default never
applies). -/
def sFreshCoerceOut : MachineState :=
  (coerceRegisterAssignment ⟨false, false, false, false⟩ sFresh
      [⟨.other, fun _ => false, false⟩] 0 2).getD baseState

/- Helper lemmas. -/

theorem upd_apply {α : Type} (f : Nat → α) (i : Nat) (a : α) (j : Nat) :
    upd f i a j = if j = i then a else f j := rfl

theorem upd_self {α : Type} (f : Nat → α) (i : Nat) : upd f i (f i) = f := by
  funext j
  unfold upd
  split
  · rename_i h
    rw [h]
  · rfl

/- C4: the register file after initializeRegisterFile. -/

/-- C4 (amended): after initializeRegisterFile, every constructed physical
register — the GPRs x0..x29 and the reserved identities lr, sp, xzr as well as
every FPR — is in state Free with weight 0; initializeRegisterFile marks no
register Locked. -/
theorem c4_initializeRegisterFile_all_free :
    ∀ i r, initializeRegisterFile i = some r → r.state = RegState.Free ∧ r.weight = 0 := by
  intro i r h
  unfold initializeRegisterFile at h
  split_ifs at h <;> (injection h with h; rw [← h]; exact ⟨rfl, rfl⟩)

/-- Witness for C4: the register constructed for sp is Free with weight 0. -/
theorem c4_witness :
    (⟨RegKind.GPR, 0, RegState.Free, none, 0⟩ : RealReg).state = RegState.Free ∧
    (⟨RegKind.GPR, 0, RegState.Free, none, 0⟩ : RealReg).weight = 0 :=
  c4_initializeRegisterFile_all_free spReg ⟨RegKind.GPR, 0, RegState.Free, none, 0⟩ (by decide)

/-- Counterexample for C4: the claim asserts that sp, lr and xzr are in state
Locked after initializeRegisterFile; the source constructs all three in state
Free (lines 937-956). -/
theorem c4_counterexample :
    initializeRegisterFile spReg = some ⟨RegKind.GPR, 0, RegState.Free, none, 0⟩ ∧
    initializeRegisterFile lrReg = some ⟨RegKind.GPR, 0, RegState.Free, none, 0⟩ ∧
    initializeRegisterFile xzrReg = some ⟨RegKind.GPR, 0, RegState.Free, none, 0⟩ ∧
    RegState.Free ≠ RegState.Locked := by
  decide

/- C5: characterization of the findBestFreeRegister scan. -/

theorem fbfrGo_spec (file : Nat → RealReg) (cu : Bool) :
    ∀ (cnt i : Nat) (best : Option Nat) (bw : Nat),
      (∀ b, best = some b → pickable (file b) cu ∧ (file b).weight = bw ∧ b < i) →
      (best = none → bw = 4294967295) →
      (∀ c, fbfrGo file cu i cnt best bw = some c →
          pickable (file c) cu ∧ (file c).weight ≤ bw ∧ c < i + cnt ∧
          (best = some c ∨ (i ≤ c ∧ (file c).weight < bw)) ∧
          (∀ j, i ≤ j → j < i + cnt → pickable (file j) cu →
            (file c).weight ≤ (file j).weight) ∧
          (∀ j, i ≤ j → j < i + cnt → pickable (file j) cu →
            (file j).weight = (file c).weight → c ≤ j)) ∧
      (fbfrGo file cu i cnt best bw = none →
          best = none ∧ ∀ j, i ≤ j → j < i + cnt → pickable (file j) cu →
            ¬ (file j).weight < bw) := by
  intro cnt
  induction cnt with
  | zero =>
    intro i best bw hbest _
    constructor
    · intro c hc
      simp only [fbfrGo] at hc
      obtain ⟨hp, hw, hi⟩ := hbest c hc
      exact ⟨hp, le_of_eq hw, by omega, Or.inl hc, by intro j h1 h2; omega,
        by intro j h1 h2; omega⟩
    · intro h
      simp only [fbfrGo] at h
      exact ⟨h, by intro j h1 h2; omega⟩
  | succ n ih =>
    intro i best bw hbest hnone
    by_cases hcond : pickable (file i) cu ∧ (file i).weight < bw
    · have hgo : fbfrGo file cu i (n + 1) best bw =
          fbfrGo file cu (i + 1) n (some i) (file i).weight := by
        simp only [fbfrGo]
        rw [if_pos hcond]
      have hrec := ih (i + 1) (some i) (file i).weight
        (by
          intro b hb
          obtain rfl : i = b := by injection hb
          exact ⟨hcond.1, rfl, by omega⟩)
        (by intro h; exact absurd h (by simp))
      constructor
      · intro c hc
        rw [hgo] at hc
        obtain ⟨hp, hwle, hlt, hdisj, hmin, htie⟩ := hrec.1 c hc
        refine ⟨hp, le_of_lt (lt_of_le_of_lt hwle hcond.2), by omega, ?_, ?_, ?_⟩
        · rcases hdisj with h | h
          · obtain rfl : i = c := by injection h
            exact Or.inr ⟨le_refl i, hcond.2⟩
          · exact Or.inr ⟨by omega, lt_trans h.2 hcond.2⟩
        · intro j h1 h2 hpj
          by_cases hji : j = i
          · rw [hji]; exact hwle
          · exact hmin j (by omega) (by omega) hpj
        · intro j h1 h2 hpj heqw
          by_cases hji : j = i
          · rw [hji] at heqw
            rcases hdisj with h | h
            · have hic : i = c := by injection h
              omega
            · omega
          · exact htie j (by omega) (by omega) hpj heqw
      · intro h
        rw [hgo] at h
        exact absurd (hrec.2 h).1 (by simp)
    · have hgo : fbfrGo file cu i (n + 1) best bw = fbfrGo file cu (i + 1) n best bw := by
        simp only [fbfrGo]
        rw [if_neg hcond]
      have hskip : pickable (file i) cu → ¬ (file i).weight < bw := by
        intro hp hlt
        exact hcond ⟨hp, hlt⟩
      have hrec := ih (i + 1) best bw
        (by
          intro b hb
          obtain ⟨a, b', c'⟩ := hbest b hb
          exact ⟨a, b', by omega⟩)
        hnone
      constructor
      · intro c hc
        rw [hgo] at hc
        obtain ⟨hp, hwle, hlt, hdisj, hmin, htie⟩ := hrec.1 c hc
        refine ⟨hp, hwle, by omega, ?_, ?_, ?_⟩
        · rcases hdisj with h | h
          · exact Or.inl h
          · exact Or.inr ⟨by omega, h.2⟩
        · intro j h1 h2 hpj
          by_cases hji : j = i
          · subst hji
            exact le_trans hwle (by have := hskip hpj; omega)
          · exact hmin j (by omega) (by omega) hpj
        · intro j h1 h2 hpj heqw
          by_cases hji : j = i
          · subst hji
            have hbwj := hskip hpj
            rcases hdisj with h | h
            · obtain ⟨_, _, hci⟩ := hbest c h
              omega
            · omega
          · exact htie j (by omega) (by omega) hpj heqw
      · intro h
        rw [hgo] at h
        obtain ⟨hb, hall⟩ := hrec.2 h
        refine ⟨hb, ?_⟩
        intro j h1 h2 hpj
        by_cases hji : j = i
        · subst hji
          exact hskip hpj
        · exact hall j (by omega) (by omega) hpj

theorem kindFind_window (rk : RegKind) :
    kindFindFirst rk + (kindFindLast rk + 1 - kindFindFirst rk) = kindFindLast rk + 1 := by
  cases rk <;> decide

/-- C5 (amended): findBestFreeRegister(kind, considerUnlatched) returns the
register in the kind's window whose state is Free (or Unlatched when
considerUnlatched) with the strictly smallest weight among those of weight
below the scan sentinel 2^32 - 1, ties broken by lowest index; a register of
weight 2^32 - 1 is never selected.  If the winner was Unlatched its state is
set to Free and its back-pointer cleared before it is returned; null is
returned when no register of weight below 2^32 - 1 qualifies. -/
theorem c5_findBestFreeRegister :
    (∀ s rk cu i s', findBestFreeRegister s rk cu = (some i, s') →
        kindFindFirst rk ≤ i ∧ i ≤ kindFindLast rk ∧ pickable (s.file i) cu ∧
        (s.file i).weight < 4294967295 ∧
        (∀ j, kindFindFirst rk ≤ j → j ≤ kindFindLast rk → pickable (s.file j) cu →
          (s.file i).weight ≤ (s.file j).weight) ∧
        (∀ j, kindFindFirst rk ≤ j → j ≤ kindFindLast rk → pickable (s.file j) cu →
          (s.file j).weight = (s.file i).weight → i ≤ j) ∧
        s' = (if (s.file i).state = RegState.Unlatched then
                updFile s i { s.file i with assignedReg := none, state := RegState.Free }
              else s)) ∧
    (∀ s rk cu s', findBestFreeRegister s rk cu = (none, s') →
        s' = s ∧ ∀ j, kindFindFirst rk ≤ j → j ≤ kindFindLast rk → pickable (s.file j) cu →
          ¬ (s.file j).weight < 4294967295) := by
  constructor
  · intro s rk cu i s' h
    unfold findBestFreeRegister at h
    split at h
    · simp at h
    · rename_i i0 hgo
      have hc := (fbfrGo_spec s.file cu (kindFindLast rk + 1 - kindFindFirst rk)
        (kindFindFirst rk) none 4294967295
        (by intro b hb; exact Option.noConfusion hb) (fun _ => rfl)).1 i0 hgo
      obtain ⟨hp, _, hlt, hdisj, hmin, htie⟩ := hc
      have hwin := kindFind_window rk
      have hfirst : kindFindFirst rk ≤ i0 := by
        rcases hdisj with hd | hd
        · exact Option.noConfusion hd
        · exact hd.1
      have hwlt : (s.file i0).weight < 4294967295 := by
        rcases hdisj with hd | hd
        · exact Option.noConfusion hd
        · exact hd.2
      split at h
      · rename_i hst
        simp only [Prod.mk.injEq] at h
        obtain ⟨h1, h2⟩ := h
        injection h1 with h1
        rw [← h1]
        refine ⟨hfirst, by omega, hp, hwlt, ?_, ?_, ?_⟩
        · intro j hj1 hj2 hpj
          exact hmin j hj1 (by omega) hpj
        · intro j hj1 hj2 hpj heq
          exact htie j hj1 (by omega) hpj heq
        · rw [if_pos hst]
          exact h2.symm
      · rename_i hst
        simp only [Prod.mk.injEq] at h
        obtain ⟨h1, h2⟩ := h
        injection h1 with h1
        rw [← h1]
        refine ⟨hfirst, by omega, hp, hwlt, ?_, ?_, ?_⟩
        · intro j hj1 hj2 hpj
          exact hmin j hj1 (by omega) hpj
        · intro j hj1 hj2 hpj heq
          exact htie j hj1 (by omega) hpj heq
        · rw [if_neg hst]
          exact h2.symm
  · intro s rk cu s' h
    unfold findBestFreeRegister at h
    split at h
    · rename_i hgo
      simp only [Prod.mk.injEq] at h
      have hc := (fbfrGo_spec s.file cu (kindFindLast rk + 1 - kindFindFirst rk)
        (kindFindFirst rk) none 4294967295
        (by intro b hb; exact Option.noConfusion hb) (fun _ => rfl)).2 hgo
      have hwin := kindFind_window rk
      refine ⟨h.2.symm, ?_⟩
      intro j hj1 hj2 hpj
      exact hc.2 j hj1 (by omega) hpj
    · rename_i i0 hgo
      split at h <;> simp at h

/-- Witness for C5: on a file with x0 Free at weight 5 and x1 Free at weight 3,
the picker's winner x1 (register number 2) lies in the GPR window, is pickable,
and has weight below the sentinel. -/
theorem c5_witness :
    kindFindFirst RegKind.GPR ≤ 2 ∧ 2 ≤ kindFindLast RegKind.GPR ∧
    pickable (sWeights.file 2) false ∧ (sWeights.file 2).weight < 4294967295 :=
  have h := c5_findBestFreeRegister.1 sWeights RegKind.GPR false 2 sWeights rfl
  ⟨h.1, h.2.1, h.2.2.1, h.2.2.2.1⟩

/-- Counterexample for C5: the claim asserts the picker returns the Free
register of strictly smallest weight whenever a candidate exists; on a file
whose only Free register has weight 0xffffffff (the scan's initial
bestWeightSoFar, compared with strict less-than) the source returns null even
though a Free register exists in the window. -/
theorem c5_counterexample :
    (findBestFreeRegister sHeavy RegKind.GPR false).1 = none ∧
    (sHeavy.file 1).state = RegState.Free ∧
    kindFindFirst RegKind.GPR ≤ 1 ∧ 1 ≤ kindFindLast RegKind.GPR := by
  decide

/- C2: the backward-walk victim selection of freeBestRegister. -/

theorem sweepGo_subset (ins : Instr) :
    ∀ (fuel i : Nat) (cands : List (Option Nat)) (c : Option Nat),
      c ∈ sweepGo ins fuel i cands → c ∈ cands := by
  intro fuel
  induction fuel with
  | zero =>
    intro i cands c hc
    simpa [sweepGo] using hc
  | succ n ih =>
    intro i cands c hc
    simp only [sweepGo] at hc
    split at hc
    · split at hc
      · have h1 := ih _ _ _ hc
        have h2 : c ∈ cands.set i (cands.getLast
            (List.length_pos.mp (Nat.lt_of_le_of_lt (Nat.zero_le i) (by assumption)))) :=
          (List.dropLast_sublist _).subset h1
        rcases List.mem_or_eq_of_mem_set h2 with h3 | h3
        · exact h3
        · rw [h3]
          exact List.getLast_mem _
      · exact ih _ _ _ hc
    · exact hc

theorem mem_swapRemove (l : List (Option Nat)) (i : Nat) (h : i < l.length) (hne : l ≠ [])
    (c : Option Nat) (hc : c ∈ l) (hci : l[i]? ≠ some c) :
    c ∈ (l.set i (l.getLast hne)).dropLast := by
  obtain ⟨j, hj⟩ := List.mem_iff_getElem?.mp hc
  have hjlen : j < l.length := by
    by_contra h'
    rw [List.getElem?_eq_none (by omega)] at hj
    exact Option.noConfusion hj
  have hij : i ≠ j := by
    intro he
    rw [he] at hci
    exact hci hj
  by_cases hjl : j = l.length - 1
  · have hil : i < l.length - 1 := by omega
    apply List.mem_iff_getElem?.mpr
    refine ⟨i, ?_⟩
    rw [List.getElem?_dropLast, if_pos (by simp only [List.length_set]; omega),
      List.getElem?_set, if_pos rfl, if_pos h]
    have h3 : l[l.length - 1]? = some c := by
      rw [← hjl]
      exact hj
    rw [List.getElem?_eq_getElem (by omega)] at h3
    injection h3 with h3
    rw [List.getLast_eq_getElem l hne, h3]
  · have hjl2 : j < l.length - 1 := by omega
    apply List.mem_iff_getElem?.mpr
    refine ⟨j, ?_⟩
    rw [List.getElem?_dropLast, if_pos (by simp only [List.length_set]; omega),
      List.getElem?_set, if_neg hij]
    exact hj

theorem sweepGo_mem_of_not_refs (ins : Instr) (c : Option Nat) (hr : refsCand ins c = false) :
    ∀ (fuel i : Nat) (cands : List (Option Nat)), c ∈ cands → c ∈ sweepGo ins fuel i cands := by
  intro fuel
  induction fuel with
  | zero =>
    intro i cands hc
    simpa [sweepGo] using hc
  | succ n ih =>
    intro i cands hc
    simp only [sweepGo]
    split
    · rename_i hlen
      split
      · rename_i href
        apply ih
        apply mem_swapRemove _ _ hlen _ c hc
        intro he
        rw [List.getElem?_eq_getElem hlen] at he
        injection he with he
        rw [he] at href
        rw [hr] at href
        exact Bool.noConfusion href
      · exact ih _ _ hc
    · exact hc

theorem walkLoop_subset :
    ∀ (stream : List Instr) (cands : List (Option Nat)) (c : Option Nat),
      c ∈ walkLoop stream cands → c ∈ cands := by
  intro stream
  induction stream with
  | nil =>
    intro cands c hc
    simpa [walkLoop] using hc
  | cons ins rest ih =>
    intro cands c hc
    simp only [walkLoop] at hc
    split at hc
    · have h1 := ih _ _ hc
      simp only [sweep] at h1
      exact sweepGo_subset ins _ _ _ _ h1
    · exact hc

theorem walkLoop_not_refs :
    ∀ (stream : List Instr) (cands : List (Option Nat)) (c : Option Nat),
      (∀ ins ∈ stream, refsCand ins c = false) →
      (c ∈ walkLoop stream cands ↔ c ∈ cands) := by
  intro stream
  induction stream with
  | nil =>
    intro cands c _
    simp [walkLoop]
  | cons ins rest ih =>
    intro cands c h
    simp only [walkLoop]
    split
    · constructor
      · intro hc
        have h1 := (ih _ c (fun i hi => h i (List.mem_cons_of_mem ins hi))).mp hc
        simp only [sweep] at h1
        exact sweepGo_subset ins _ _ _ _ h1
      · intro hc
        apply (ih _ c (fun i hi => h i (List.mem_cons_of_mem ins hi))).mpr
        simp only [sweep]
        exact sweepGo_mem_of_not_refs ins c (h ins (List.mem_cons_self ins rest)) _ _ _ hc
    · exact Iff.rfl

/-- C2 (amended): with no forced register and several Assigned candidates, the
victim of freeBestRegister is chosen by walking the instruction stream
backwards from the current instruction via prev, where each visited instruction
performs one ascending swap-from-end sweep of the candidate array: a referenced
candidate is overwritten by the current last candidate and the array shrinks,
and the swapped-in candidate is not re-examined at that instruction — so only
referenced candidates are ever removed (a candidate referenced by no visited
instruction always survives, and a referenced candidate swapped into an
already-scanned slot can survive the instruction).  The walk stops when exactly
one candidate remains, the stream is exhausted, or a label or proc instruction
is reached, and the victim is the candidate in array slot 0, which is one of
the originally collected candidates. -/
theorem c2_freeBestRegister_victim :
    (∀ s stream rk b r, fbrVictim s stream rk none = some (b, r) →
        (walkLoop stream (collectCandidates s.file (kindEvictFirst rk)
            (kindEvictLast rk + 1 - kindEvictFirst rk))).head? = some (some r) ∧
        some r ∈ collectCandidates s.file (kindEvictFirst rk)
            (kindEvictLast rk + 1 - kindEvictFirst rk) ∧
        (s.virts r).assignedReal = some b) ∧
    (∀ ins rest cands, (ins.op = Mnemonic.label ∨ ins.op = Mnemonic.proc) →
        walkLoop (ins :: rest) cands = cands) ∧
    (∀ stream cands c, (∀ ins ∈ stream, refsCand ins c = false) →
        (c ∈ walkLoop stream cands ↔ c ∈ cands)) := by
  refine ⟨?_, ?_, walkLoop_not_refs⟩
  · intro s stream rk b r h
    simp only [fbrVictim] at h
    rcases hwalk : walkLoop stream (collectCandidates s.file (kindEvictFirst rk)
        (kindEvictLast rk + 1 - kindEvictFirst rk)) with _ | ⟨c0, tail⟩
    · rw [hwalk] at h
      simp [victimFromWalk] at h
    · rw [hwalk] at h
      cases c0 with
      | none => simp [victimFromWalk] at h
      | some r0 =>
        simp only [victimFromWalk] at h
        cases hb0 : (s.virts r0).assignedReal with
        | none =>
          rw [hb0] at h
          simp at h
        | some b0 =>
          rw [hb0] at h
          simp only [Option.some.injEq, Prod.mk.injEq] at h
          obtain ⟨h1, h2⟩ := h
          subst h1
          subst h2
          refine ⟨?_, ?_, ?_⟩
          · rfl
          · exact walkLoop_subset stream _ _ (by rw [hwalk]; exact List.mem_cons_self _ _)
          · exact hb0
  · intro ins rest cands h
    simp only [walkLoop]
    rw [if_neg]
    intro hcond
    rcases h with h | h
    · exact hcond.2.1 h
    · exact hcond.2.2 h

/-- Witness for C2: on the three-candidate file sWalk with stream stWalk, the
victim virtual is 12 (slot 0 of the finished walk), it is one of the collected
candidates, and its real register is x2 (number 3). -/
theorem c2_witness :
    (walkLoop stWalk (collectCandidates sWalk.file (kindEvictFirst RegKind.GPR)
        (kindEvictLast RegKind.GPR + 1 - kindEvictFirst RegKind.GPR))).head? = some (some 12) ∧
    some 12 ∈ collectCandidates sWalk.file (kindEvictFirst RegKind.GPR)
        (kindEvictLast RegKind.GPR + 1 - kindEvictFirst RegKind.GPR) ∧
    (sWalk.virts 12).assignedReal = some 3 :=
  c2_freeBestRegister_victim.1 sWalk stWalk RegKind.GPR 3 12 (by decide)

/-- Counterexample for C2: the claim says every candidate referenced by the
visited instruction is removed from the set and the first remaining candidate
(ascending-index bias) is returned.  On sWalk (candidates 10, 11, 12 in x0, x1,
x2) with a current instruction referencing 10 and 12 followed by a label, the
source's swap-from-end sweep removes 10, swaps 12 into the scanned slot 0 where
it survives, and returns virtual 12 in x2 — whereas the claim's removal
semantics (fbrVictimClaim, modelled from the spec) removes both 10 and 12 and
returns virtual 11 in x1. -/
theorem c2_counterexample :
    fbrVictim sWalk stWalk RegKind.GPR none = some (3, 12) ∧
    fbrVictimClaim sWalk stWalk RegKind.GPR none = some (2, 11) ∧
    ((3, 12) : Nat × Nat) ≠ (2, 11) ∧
    (freeBestRegister cgDis sWalk stWalk none none).map (fun p => p.1) = some 3 := by
  decide

/- C6: decFutureUseCountAndUnlatch. -/

/-- C6: every successful call to decFutureUseCountAndUnlatch decrements the
virtual's future_use_count, additionally decrements out_of_line_use_count in
the OOL cold path, satisfies the asserted future >= out-of-line invariant, and
— exactly when the decremented future use count is 0, or in the OOL hot path it
equals the decremented out-of-line use count — sets the assigned physical
register's state to Unlatched and clears both back-pointers; otherwise the
register file and the assignment are untouched. -/
theorem c6_decFutureUseCountAndUnlatch :
    ∀ cg s v s', decFutureUseCountAndUnlatch cg s v = some s' →
      (s'.virts v).futureUseCount = (s.virts v).futureUseCount - 1 ∧
      (s'.virts v).outOfLineUseCount =
        oolDec cg.isOutOfLineColdPath (s.virts v).outOfLineUseCount ∧
      (s'.virts v).outOfLineUseCount ≤ (s'.virts v).futureUseCount ∧
      (((s.virts v).futureUseCount - 1 = 0 ∨
          (cg.isOutOfLineHotPath ∧ (s.virts v).futureUseCount - 1 =
            oolDec cg.isOutOfLineColdPath (s.virts v).outOfLineUseCount)) →
        ∃ p, (s.virts v).assignedReal = some p ∧
          (s'.file p).state = RegState.Unlatched ∧
          (s'.file p).assignedReg = none ∧
          (s'.virts v).assignedReal = none) ∧
      ((¬ ((s.virts v).futureUseCount - 1 = 0 ∨
          (cg.isOutOfLineHotPath ∧ (s.virts v).futureUseCount - 1 =
            oolDec cg.isOutOfLineColdPath (s.virts v).outOfLineUseCount))) →
        s'.file = s.file ∧ (s'.virts v).assignedReal = (s.virts v).assignedReal) := by
  intro cg s v s' h
  simp only [decFutureUseCountAndUnlatch] at h
  split at h
  · exact Option.noConfusion h
  · rename_i hFO
    split at h
    · rename_i hcond
      cases hp : (s.virts v).assignedReal with
      | none =>
        rw [hp] at h
        exact Option.noConfusion h
      | some p =>
        rw [hp] at h
        injection h with h
        rw [← h]
        refine ⟨?_, ?_, ?_, ?_, ?_⟩
        · simp [updVirtAssigned, updVirt, updFile, upd]
        · simp [updVirtAssigned, updVirt, updFile, upd]
        · simp only [updVirtAssigned, updVirt, updFile, upd]
          simp
          omega
        · intro _
          refine ⟨p, rfl, ?_, ?_, ?_⟩
          · simp [updVirtAssigned, updVirt, updFile, upd]
          · simp [updVirtAssigned, updVirt, updFile, upd]
          · simp [updVirtAssigned, updVirt, updFile, upd]
        · intro hnc
          exact absurd hcond hnc
    · rename_i hcond
      injection h with h
      rw [← h]
      refine ⟨?_, ?_, ?_, ?_, ?_⟩
      · simp [updVirt, upd]
      · simp [updVirt, upd]
      · simp only [updVirt, upd]
        simp
        omega
      · intro hc
        exact absurd hc hcond
      · intro _
        exact ⟨rfl, by simp [updVirt, upd]⟩

/-- Witness for C6: on sLastUse (virtual 0 in x0 with future use count 1, main
line) the decrement succeeds, the counter invariant holds, and the decremented
count is the original one minus one. -/
theorem c6_witness :
    (sLastUseOut.virts 0).futureUseCount = (sLastUse.virts 0).futureUseCount - 1 ∧
    (sLastUseOut.virts 0).outOfLineUseCount ≤ (sLastUseOut.virts 0).futureUseCount :=
  have hc := c6_decFutureUseCountAndUnlatch cgMain sLastUse 0 sLastUseOut rfl
  ⟨hc.1, hc.2.2.1⟩

/- Projection lemmas for the state updaters. -/

theorem slots_updFile (s : MachineState) (i : Nat) (r : RealReg) :
    (updFile s i r).slots = s.slots := rfl

theorem slots_updVirt (s : MachineState) (v : Nat) (vr : VirtReg) :
    (updVirt s v vr).slots = s.slots := rfl

theorem slots_pushEvent (s : MachineState) (e : Event) :
    (pushEvent s e).slots = s.slots := rfl

theorem spilled_updFile (s : MachineState) (i : Nat) (r : RealReg) :
    (updFile s i r).spilledRegisterList = s.spilledRegisterList := rfl

theorem spilled_updVirt (s : MachineState) (v : Nat) (vr : VirtReg) :
    (updVirt s v vr).spilledRegisterList = s.spilledRegisterList := rfl

theorem spilled_pushEvent (s : MachineState) (e : Event) :
    (pushEvent s e).spilledRegisterList = s.spilledRegisterList := rfl

theorem allocateSpill_frame (s : MachineState) (l : Nat) (s1 : MachineState)
    (h : allocateSpill s = some (l, s1)) :
    s1.file = s.file ∧ s1.virts = s.virts ∧ s1.slots = s.slots ∧
    s1.spilledRegisterList = s.spilledRegisterList ∧
    s1.firstTimeLiveOOLRegisterList = s.firstTimeLiveOOLRegisterList ∧
    s1.events = s.events := by
  unfold allocateSpill at h
  split at h
  · exact Option.noConfusion h
  · injection h with h
    obtain ⟨h1, h2⟩ := Prod.mk.injEq _ _ _ _ |>.mp h
    rw [← h2]
    exact ⟨rfl, rfl, rfl, rfl, rfl, rfl⟩

theorem allocateInternalPointerSpill_frame (s : MachineState) (l : Nat) (s1 : MachineState)
    (h : allocateInternalPointerSpill s = some (l, s1)) :
    s1.file = s.file ∧ s1.virts = s.virts ∧ s1.slots = s.slots ∧
    s1.spilledRegisterList = s.spilledRegisterList ∧
    s1.firstTimeLiveOOLRegisterList = s.firstTimeLiveOOLRegisterList ∧
    s1.events = s.events := by
  unfold allocateInternalPointerSpill at h
  split at h
  · exact Option.noConfusion h
  · injection h with h
    obtain ⟨h1, h2⟩ := Prod.mk.injEq _ _ _ _ |>.mp h
    rw [← h2]
    exact ⟨rfl, rfl, rfl, rfl, rfl, rfl⟩

theorem fbrAcquire_frame (cg : CG) (s : MachineState) (rk : RegKind) (r : Nat)
    (loc : Nat) (s1 : MachineState) (h : fbrAcquire cg s rk r = some (loc, s1)) :
    s1.file = s.file ∧ s1.virts = s.virts ∧ s1.slots = s.slots ∧
    s1.spilledRegisterList = s.spilledRegisterList ∧
    s1.firstTimeLiveOOLRegisterList = s.firstTimeLiveOOLRegisterList ∧
    s1.events = s.events := by
  cases rk with
  | GPR =>
    simp only [fbrAcquire] at h
    split at h
    · split at h
      · injection h with h
        obtain ⟨h1, h2⟩ := Prod.mk.injEq _ _ _ _ |>.mp h
        rw [← h2]
        exact ⟨rfl, rfl, rfl, rfl, rfl, rfl⟩
      · exact Option.noConfusion h
    · split at h
      · exact allocateSpill_frame s loc s1 h
      · exact allocateInternalPointerSpill_frame s loc s1 h
  | FPR =>
    simp only [fbrAcquire] at h
    split at h
    · split at h
      · injection h with h
        obtain ⟨h1, h2⟩ := Prod.mk.injEq _ _ _ _ |>.mp h
        rw [← h2]
        exact ⟨rfl, rfl, rfl, rfl, rfl, rfl⟩
      · exact Option.noConfusion h
    · exact allocateSpill_frame s loc s1 h

/- C9: coercion to the already-assigned target is a no-op. -/

/-- C9: a coerceRegisterAssignment call whose virtual is already assigned to
the named target register returns with the machine state — register file,
virtual registers, and the instruction stream (event trace) — completely
unchanged. -/
theorem c9_coerce_noop :
    ∀ cg s stream v p, (s.virts v).assignedReal = some p →
      coerceRegisterAssignment cg s stream v p = some s := by
  intro cg s stream v p h
  simp only [coerceRegisterAssignment, h]
  simp

/-- Witness for C9: coercing virtual 0 (assigned to x0, register number 1) onto
register number 1 returns the state sBound unchanged. -/
theorem c9_witness :
    coerceRegisterAssignment cgMain sBound stPlain 0 1 = some sBound :=
  c9_coerce_noop cgMain sBound stPlain 0 1 rfl

/- C7: the sticky spill-depth marks of freeBestRegister. -/

theorem fbrBookkeep_spec (cg : CG) (s : MachineState) (r loc : Nat)
    (hd : cg.disableOOL = false) :
    ((fbrBookkeep cg s r loc).slots loc).maxSpillDepth =
      (if cg.isOutOfLineColdPath then
         (if (s.slots loc).maxSpillDepth ≠ 1 ∧ (s.slots loc).maxSpillDepth ≠ 2 then 3
          else (s.slots loc).maxSpillDepth)
       else if cg.isOutOfLineHotPath then
         (if (s.slots loc).maxSpillDepth ≠ 1 then 2 else (s.slots loc).maxSpillDepth)
       else 1) ∧
    (fbrBookkeep cg s r loc).spilledRegisterList =
      (if cg.isOutOfLineColdPath then s.spilledRegisterList
       else r :: s.spilledRegisterList) := by
  simp only [fbrBookkeep, hd]
  constructor
  · split_ifs <;> simp_all [setMaxSpillDepth, upd]
  · split_ifs <;> simp_all [setMaxSpillDepth, upd]

/-- C7: for every spill performed by freeBestRegister with OOL enabled the
slot-depth marks are sticky against less-dominant overwrites — a main-line
spill sets the depth to 1 and pushes the victim onto the spilled-register
list; an OOL hot-path spill pushes and sets depth 2 only if the current depth
is not 1; an OOL cold-path spill does not push and sets depth 3 only if the
current depth is neither 1 nor 2. -/
theorem c7_freeBestRegister_spill_depth :
    ∀ cg s stream vr forced rk b r loc s1 b' s',
      cg.disableOOL = false →
      fbrKind s vr = rk →
      fbrVictim s stream rk forced = some (b, r) →
      fbrAcquire cg s rk r = some (loc, s1) →
      freeBestRegister cg s stream vr forced = some (b', s') →
      ((s'.slots loc).maxSpillDepth =
        (if cg.isOutOfLineColdPath then
           (if (s.slots loc).maxSpillDepth ≠ 1 ∧ (s.slots loc).maxSpillDepth ≠ 2 then 3
            else (s.slots loc).maxSpillDepth)
         else if cg.isOutOfLineHotPath then
           (if (s.slots loc).maxSpillDepth ≠ 1 then 2 else (s.slots loc).maxSpillDepth)
         else 1)) ∧
      s'.spilledRegisterList =
        (if cg.isOutOfLineColdPath then s.spilledRegisterList
         else r :: s.spilledRegisterList) := by
  intro cg s stream vr forced rk b r loc s1 b' s' hd hrk hv ha h
  simp only [freeBestRegister, hrk, hv, ha] at h
  injection h with h
  obtain ⟨h1, h2⟩ := Prod.mk.injEq _ _ _ _ |>.mp h
  rw [← h2]
  have hfr := fbrAcquire_frame cg s rk r loc s1 ha
  have hb := fbrBookkeep_spec cg (updVirtBacking s1 r (some loc)) r loc hd
  have hs2slots : (updVirtBacking s1 r (some loc)).slots = s.slots := by
    simp only [updVirtBacking, slots_updVirt]
    exact hfr.2.2.1
  have hs2sp : (updVirtBacking s1 r (some loc)).spilledRegisterList = s.spilledRegisterList := by
    simp only [updVirtBacking, spilled_updVirt]
    exact hfr.2.2.2.1
  rw [hs2slots, hs2sp] at hb
  constructor
  · simp only [updVirtAssigned, slots_updVirt, slots_updFile, slots_pushEvent]
    exact hb.1
  · simp only [updVirtAssigned, spilled_updVirt, spilled_updFile, spilled_pushEvent]
    exact hb.2

/-- Witness for C7: a forced main-line eviction of virtual 9 out of x0 on
sForced allocates slot 5, pushes 9 onto the spilled-register list, and marks
the slot with depth 1. -/
theorem c7_witness :
    cgMain.disableOOL = false ∧
    (sForcedOut.slots 5).maxSpillDepth = 1 ∧
    sForcedOut.spilledRegisterList = [9] :=
  have h := c7_freeBestRegister_spill_depth cgMain sForced stPlain none (some 1)
    RegKind.GPR 1 9 5 { sForced with freshSlots := [] } 1 sForcedOut
    rfl rfl rfl rfl rfl
  ⟨rfl, by rw [h.1]; decide, by rw [h.2]; decide⟩

/- Supporting lemmas for the reverse-spill theorems. -/

theorem virts_updFile (s : MachineState) (i : Nat) (r : RealReg) :
    (updFile s i r).virts = s.virts := rfl

theorem virts_pushEvent (s : MachineState) (e : Event) :
    (pushEvent s e).virts = s.virts := rfl

theorem events_updVirt (s : MachineState) (v : Nat) (vr : VirtReg) :
    (updVirt s v vr).events = s.events := rfl

theorem events_updFile (s : MachineState) (i : Nat) (r : RealReg) :
    (updFile s i r).events = s.events := rfl

theorem backing_updVirtAssigned (s : MachineState) (r : Nat) (p : Option Nat) (v : Nat) :
    ((updVirtAssigned s r p).virts v).backingStorage = (s.virts v).backingStorage := by
  unfold updVirtAssigned updVirt upd
  by_cases h : v = r <;> simp [h]

theorem virts_fbrBookkeep (cg : CG) (s : MachineState) (r loc : Nat) :
    (fbrBookkeep cg s r loc).virts = s.virts := by
  simp only [fbrBookkeep]
  split_ifs <;> rfl

theorem events_fbrBookkeep (cg : CG) (s : MachineState) (r loc : Nat) :
    (fbrBookkeep cg s r loc).events = s.events := by
  simp only [fbrBookkeep]
  split_ifs <;> rfl

theorem slots_fbrBookkeep_other (cg : CG) (s : MachineState) (r loc loc' : Nat)
    (h : loc' ≠ loc) : (fbrBookkeep cg s r loc).slots loc' = s.slots loc' := by
  simp only [fbrBookkeep]
  split_ifs <;> simp [setMaxSpillDepth, upd, h]

theorem numFreeSpills_append (a b : List Event) :
    numFreeSpills (a ++ b) = numFreeSpills a + numFreeSpills b := by
  induction a with
  | nil => simp [numFreeSpills]
  | cons e es ih =>
    cases e <;> simp [numFreeSpills, ih] <;> omega

theorem numStores_append (a b : List Event) :
    numStores (a ++ b) = numStores a + numStores b := by
  induction a with
  | nil => simp [numStores]
  | cons e es ih =>
    cases e <;> simp [numStores, ih] <;> omega

theorem findBestFreeRegister_frame (s : MachineState) (rk : RegKind) (cu : Bool) :
    ((findBestFreeRegister s rk cu).2).virts = s.virts ∧
    ((findBestFreeRegister s rk cu).2).slots = s.slots ∧
    ((findBestFreeRegister s rk cu).2).events = s.events ∧
    ((findBestFreeRegister s rk cu).2).spilledRegisterList = s.spilledRegisterList ∧
    ((findBestFreeRegister s rk cu).2).freshSlots = s.freshSlots ∧
    ((findBestFreeRegister s rk cu).2).firstTimeLiveOOLRegisterList =
      s.firstTimeLiveOOLRegisterList := by
  rcases hgo : fbfrGo s.file cu (kindFindFirst rk) (kindFindLast rk + 1 - kindFindFirst rk)
      none 4294967295 with _ | i
  · simp [findBestFreeRegister, hgo]
  · simp only [findBestFreeRegister, hgo]
    split <;> exact ⟨rfl, rfl, rfl, rfl, rfl, rfl⟩

theorem collectCandidates_mem (file : Nat → RealReg) :
    ∀ (cnt i : Nat) (c : Option Nat), c ∈ collectCandidates file i cnt →
      ∃ j, (file j).state = RegState.Assigned ∧ (file j).assignedReg = c := by
  intro cnt
  induction cnt with
  | zero =>
    intro i c hc
    simp [collectCandidates] at hc
  | succ n ih =>
    intro i c hc
    simp only [collectCandidates] at hc
    split at hc
    · rename_i hst
      rcases List.mem_cons.mp hc with h | h
      · exact ⟨i, hst, h.symm⟩
      · exact ih _ _ h
    · exact ih _ _ hc

theorem victimFromWalk_head (s : MachineState) (w : List (Option Nat)) (b r : Nat)
    (h : victimFromWalk s w = some (b, r)) :
    w.head? = some (some r) ∧ (s.virts r).assignedReal = some b := by
  rcases w with _ | ⟨c0, tail⟩
  · exact Option.noConfusion h
  · cases c0 with
    | none => exact Option.noConfusion h
    | some r0 =>
      simp only [victimFromWalk] at h
      cases hb0 : (s.virts r0).assignedReal with
      | none =>
        rw [hb0] at h
        exact Option.noConfusion h
      | some b0 =>
        rw [hb0] at h
        injection h with h
        obtain ⟨h1, h2⟩ := Prod.mk.injEq _ _ _ _ |>.mp h
        rw [← h2, ← h1]
        exact ⟨rfl, hb0⟩

theorem fbrVictim_not_v (s : MachineState) (stream : List Instr) (rk : RegKind)
    (forced : Option Nat) (b r v : Nat)
    (hw : ∀ i, (s.file i).assignedReg ≠ some v)
    (h : fbrVictim s stream rk forced = some (b, r)) : r ≠ v := by
  intro hrv
  subst hrv
  cases forced with
  | some fb =>
    simp only [fbrVictim] at h
    cases hf : (s.file fb).assignedReg with
    | none =>
      rw [hf] at h
      exact Option.noConfusion h
    | some r0 =>
      rw [hf] at h
      injection h with h
      obtain ⟨_, h2⟩ := Prod.mk.injEq _ _ _ _ |>.mp h
      rw [h2] at hf
      exact hw fb hf
  | none =>
    simp only [fbrVictim] at h
    have hh := victimFromWalk_head s _ b r h
    have hmem : some r ∈ collectCandidates s.file (kindEvictFirst rk)
        (kindEvictLast rk + 1 - kindEvictFirst rk) := by
      apply walkLoop_subset stream
      rcases hwk : walkLoop stream (collectCandidates s.file (kindEvictFirst rk)
          (kindEvictLast rk + 1 - kindEvictFirst rk)) with _ | ⟨c0, tail⟩
      · rw [hwk] at hh
        exact Option.noConfusion hh.1
      · rw [hwk] at hh
        have : c0 = some r := by
          have := hh.1
          simp only [List.head?] at this
          injection this
        rw [this]
        exact List.mem_cons_self _ _
    obtain ⟨j, _, hj⟩ := collectCandidates_mem s.file _ _ _ hmem
    exact hw j hj

theorem virts_updFile_app (s : MachineState) (i : Nat) (r : RealReg) (u : Nat) :
    (updFile s i r).virts u = s.virts u := rfl

theorem virts_pushEvent_app (s : MachineState) (e : Event) (u : Nat) :
    (pushEvent s e).virts u = s.virts u := rfl

theorem virts_fbrBookkeep_app (cg : CG) (s : MachineState) (r loc u : Nat) :
    (fbrBookkeep cg s r loc).virts u = s.virts u :=
  congrFun (virts_fbrBookkeep cg s r loc) u

theorem events_updVirtAssigned (s : MachineState) (v : Nat) (p : Option Nat) :
    (updVirtAssigned s v p).events = s.events := rfl

theorem events_updVirtBacking (s : MachineState) (v : Nat) (b : Option Nat) :
    (updVirtBacking s v b).events = s.events := rfl

theorem events_pushEvent (s : MachineState) (e : Event) :
    (pushEvent s e).events = s.events ++ [e] := rfl

theorem events_setMaxSpillDepth (s : MachineState) (loc d : Nat) :
    (setMaxSpillDepth s loc d).events = s.events := rfl

theorem freeBestRegister_facts (cg : CG) (s : MachineState) (stream : List Instr)
    (vr forced : Option Nat) (v loc bb : Nat) (s2 : MachineState)
    (hb : (s.virts v).backingStorage = some loc)
    (hside : (cg.disableOOL = false ∧
        (cg.isOutOfLineColdPath = true ∨ cg.isOutOfLineHotPath = true)) ∨
      (∀ i, (s.file i).assignedReg ≠ some v))
    (h : freeBestRegister cg s stream vr forced = some (bb, s2)) :
    (s2.virts v).backingStorage = some loc ∧
    numFreeSpills s2.events = numFreeSpills s.events ∧
    numStores s2.events = numStores s.events := by
  rcases hv : fbrVictim s stream (fbrKind s vr) forced with _ | ⟨b0, r⟩
  · simp only [freeBestRegister, hv] at h
    exact Option.noConfusion h
  · rcases ha : fbrAcquire cg s (fbrKind s vr) r with _ | ⟨locr, s1⟩
    · simp only [freeBestRegister, hv, ha] at h
      exact Option.noConfusion h
    · simp only [freeBestRegister, hv, ha] at h
      injection h with h
      obtain ⟨hbb, hs2⟩ := Prod.mk.injEq _ _ _ _ |>.mp h
      rw [← hs2]
      have hfr := fbrAcquire_frame cg s _ r locr s1 ha
      refine ⟨?_, ?_, ?_⟩
      · rw [backing_updVirtAssigned]
        rw [virts_updFile_app, virts_updFile_app, virts_pushEvent_app, virts_fbrBookkeep_app]
        by_cases hrv : r = v
        · subst hrv
          rcases hside with ⟨hd, hOr⟩ | hw
          · have hre : locr = loc ∧ s1 = s := by
              cases hk : fbrKind s vr with
              | GPR =>
                rw [hk] at ha
                simp only [fbrAcquire] at ha
                rw [if_pos ⟨by simp [hd], hOr, by rw [hb]; rfl⟩] at ha
                rw [hb] at ha
                simp only [Option.some.injEq, Prod.mk.injEq] at ha
                exact ⟨ha.1.symm, ha.2.symm⟩
              | FPR =>
                rw [hk] at ha
                simp only [fbrAcquire] at ha
                rw [if_pos ⟨by simp [hd], hOr, by rw [hb]; rfl⟩] at ha
                rw [hb] at ha
                simp only [Option.some.injEq, Prod.mk.injEq] at ha
                exact ⟨ha.1.symm, ha.2.symm⟩
            obtain ⟨hl, hs1⟩ := hre
            rw [hl, hs1]
            simp [updVirtBacking, updVirt, upd]
          · exact absurd rfl (fbrVictim_not_v s stream _ forced b0 r r hw hv)
        · have hskip : (updVirtBacking s1 r (some locr)).virts v = s1.virts v := by
            simp only [updVirtBacking, updVirt, upd]
            rw [if_neg (fun hh => hrv hh.symm)]
          rw [hskip, congrFun hfr.2.1 v]
          exact hb
      · simp only [events_updVirtAssigned, events_updFile, events_pushEvent,
          events_fbrBookkeep, events_updVirtBacking, hfr.2.2.2.2.2, numFreeSpills_append]
        simp [numFreeSpills]
      · simp only [events_updVirtAssigned, events_updFile, events_pushEvent,
          events_fbrBookkeep, events_updVirtBacking, hfr.2.2.2.2.2, numStores_append]
        simp [numStores]

theorem findBestFreeRegister_file_assigned (s : MachineState) (rk : RegKind) (cu : Bool)
    (i : Nat) :
    (((findBestFreeRegister s rk cu).2).file i).assignedReg = (s.file i).assignedReg ∨
    (((findBestFreeRegister s rk cu).2).file i).assignedReg = none := by
  rcases hgo : fbfrGo s.file cu (kindFindFirst rk) (kindFindLast rk + 1 - kindFindFirst rk)
      none 4294967295 with _ | w
  · simp [findBestFreeRegister, hgo]
  · simp only [findBestFreeRegister, hgo]
    split
    · by_cases hiw : i = w
      · right
        simp [updFile, upd, hiw]
      · left
        simp [updFile, upd, hiw]
    · left
      rfl

theorem rsAcquire_facts (cg : CG) (s : MachineState) (stream : List Instr)
    (v : Nat) (target : Option Nat) (loc t : Nat) (sA : MachineState)
    (hb : (s.virts v).backingStorage = some loc)
    (hside : (cg.disableOOL = false ∧
        (cg.isOutOfLineColdPath = true ∨ cg.isOutOfLineHotPath = true)) ∨
      (∀ i, (s.file i).assignedReg ≠ some v))
    (h : rsAcquire cg s stream v target = some (t, sA)) :
    (sA.virts v).backingStorage = some loc ∧
    numFreeSpills sA.events = numFreeSpills s.events ∧
    numStores sA.events = numStores s.events := by
  cases target with
  | some t0 =>
    simp only [rsAcquire] at h
    injection h with h
    obtain ⟨h1, h2⟩ := Prod.mk.injEq _ _ _ _ |>.mp h
    rw [← h2]
    exact ⟨hb, rfl, rfl⟩
  | none =>
    rcases hf : findBestFreeRegister s (s.virts v).kind false with ⟨o, s1⟩
    have hfr := findBestFreeRegister_frame s (s.virts v).kind false
    rw [hf] at hfr
    cases o with
    | some t1 =>
      simp only [rsAcquire, hf] at h
      injection h with h
      obtain ⟨h1, h2⟩ := Prod.mk.injEq _ _ _ _ |>.mp h
      rw [← h2]
      refine ⟨?_, ?_, ?_⟩
      · rw [virts_updFile_app, congrFun hfr.1 v]
        exact hb
      · rw [events_updFile, hfr.2.2.1]
      · rw [events_updFile, hfr.2.2.1]
    | none =>
      rcases hfb : freeBestRegister cg s1 stream (some v) none with _ | ⟨t2, s2⟩
      · simp only [rsAcquire, hf, hfb] at h
        exact Option.noConfusion h
      · simp only [rsAcquire, hf, hfb] at h
        injection h with h
        obtain ⟨h1, h2⟩ := Prod.mk.injEq _ _ _ _ |>.mp h
        rw [← h2]
        have hb1 : (s1.virts v).backingStorage = some loc := by
          rw [congrFun hfr.1 v]
          exact hb
        have hside1 : (cg.disableOOL = false ∧
            (cg.isOutOfLineColdPath = true ∨ cg.isOutOfLineHotPath = true)) ∨
            (∀ i, (s1.file i).assignedReg ≠ some v) := by
          rcases hside with hl | hw
          · exact Or.inl hl
          · right
            intro i
            have he := findBestFreeRegister_file_assigned s (s.virts v).kind false i
            rw [hf] at he
            rcases he with he | he
            · rw [he]
              exact hw i
            · rw [he]
              simp
        have hfacts := freeBestRegister_facts cg s1 stream (some v) none v loc t2 s2
          hb1 hside1 hfb
        refine ⟨?_, ?_, ?_⟩
        · rw [virts_updFile_app]
          exact hfacts.1
        · rw [events_updFile, hfacts.2.1, hfr.2.2.1]
        · rw [events_updFile, hfacts.2.2, hfr.2.2.1]

/- C1: reverse spill in the OOL hot path. -/

/-- C1 (amended): for every call to reverseSpillState in the OOL hot path (OOL
enabled, spilledRegister has backing storage), the virtual is removed from
spilled_register_list and the slot's max_spill_depth is set to 0, but the slot
is always retained and backing_storage stays attached to the virtual — the
release test compares the just-zeroed depth with 2 and never fires, so no
Spill Arena release happens here even when the depth prior to the call was 2;
the release is deferred to the cold path, which frees at depth 0. -/
theorem c1_reverseSpillState_hot :
    ∀ cg s stream v target loc t s',
      cg.disableOOL = false →
      cg.isOutOfLineColdPath = false →
      cg.isOutOfLineHotPath = true →
      (s.virts v).backingStorage = some loc →
      reverseSpillState cg s stream v target = some (t, s') →
      v ∉ s'.spilledRegisterList ∧
      (s'.slots loc).maxSpillDepth = 0 ∧
      (s'.virts v).backingStorage = some loc ∧
      numFreeSpills s'.events = numFreeSpills s.events := by
  intro cg s stream v target loc t s' hd hcold hhot hb h
  rcases hacq : rsAcquire cg s stream v target with _ | ⟨t0, sA⟩
  · simp only [reverseSpillState, hacq] at h
    exact Option.noConfusion h
  · have hA := rsAcquire_facts cg s stream v target loc t0 sA hb
      (Or.inl ⟨hd, Or.inr hhot⟩) hacq
    simp only [reverseSpillState, hacq, hb, hd, hcold, hhot] at h
    simp only [Bool.false_eq_true, false_and, if_false, Bool.true_eq_false, if_true] at h
    rw [if_neg (by simp [setMaxSpillDepth, upd])] at h
    injection h with h
    obtain ⟨h1, h2⟩ := Prod.mk.injEq _ _ _ _ |>.mp h
    rw [← h2]
    refine ⟨?_, ?_, ?_, ?_⟩
    · simp only [pushEvent, setMaxSpillDepth]
      simp [List.mem_filter]
    · simp [pushEvent, setMaxSpillDepth, upd]
    · rw [show ∀ (sx : MachineState) (e : Event) (u : Nat),
          ((pushEvent sx e).virts u) = sx.virts u from fun _ _ _ => rfl]
      rw [show ∀ (sx : MachineState) (l d : Nat) (u : Nat),
          ((setMaxSpillDepth sx l d).virts u) = sx.virts u from fun _ _ _ _ => rfl]
      exact hA.1
    · rw [events_pushEvent, events_setMaxSpillDepth]
      rw [show ∀ (sx : MachineState) (l : List Nat),
          ({ sx with spilledRegisterList := l } : MachineState).events = sx.events from
        fun _ _ => rfl]
      rw [numFreeSpills_append, hA.2.1]
      simp [numFreeSpills]

/-- Witness for C1: the hot-path reverse spill of virtual 0 (slot 0, depth 2)
into x0 removes 0 from the spilled-register list, zeroes the depth, keeps the
backing storage attached, and releases nothing. -/
theorem c1_witness :
    0 ∉ sHotOut.spilledRegisterList ∧
    (sHotOut.slots 0).maxSpillDepth = 0 ∧
    (sHotOut.virts 0).backingStorage = some 0 ∧
    numFreeSpills sHotOut.events = numFreeSpills sHot.events :=
  c1_reverseSpillState_hot cgHot sHot stPlain 0 (some 1) 0 1 sHotOut
    rfl rfl rfl rfl rfl

/-- Counterexample for C1: the claim asserts that a hot-path reverse spill of a
slot whose prior max_spill_depth is 2 releases the slot and detaches
backing_storage when the free-spill list is not locked.  On sHot (depth 2,
list unlocked) the source zeroes the depth before testing it against 2, so no
release is emitted and the backing storage stays attached. -/
theorem c1_counterexample :
    (sHot.slots 0).maxSpillDepth = 2 ∧
    cgHot.isFreeSpillListLocked = false ∧
    ((reverseSpillState cgHot sHot stPlain 0 (some 1)).map
      (fun p => ((p.2.virts 0).backingStorage, numFreeSpills p.2.events))) =
      some (some 0, 0) ∧
    some 0 ≠ (none : Option Nat) := by
  decide

/- C10: reverse spill with OOL disabled. -/

/-- C10: for every reverseSpillState call with the disable-OOL option set and
backing storage present, the spill slot is released via the Spill Arena and
one store is emitted, but the virtual's backing_storage field is left
unchanged — it still points at the just-released slot. -/
theorem c10_reverseSpillState_disableOOL :
    ∀ cg s stream v target loc t s',
      cg.disableOOL = true →
      (s.virts v).backingStorage = some loc →
      (∀ i, (s.file i).assignedReg ≠ some v) →
      reverseSpillState cg s stream v target = some (t, s') →
      (s'.virts v).backingStorage = some loc ∧
      numFreeSpills s'.events = numFreeSpills s.events + 1 ∧
      numStores s'.events = numStores s.events + 1 ∧
      Event.freeSpillEv loc (dataSize (s.virts v).kind) ∈ s'.events := by
  intro cg s stream v target loc t s' hd hb hw h
  rcases hacq : rsAcquire cg s stream v target with _ | ⟨t0, sA⟩
  · simp only [reverseSpillState, hacq] at h
    exact Option.noConfusion h
  · have hA := rsAcquire_facts cg s stream v target loc t0 sA hb (Or.inr hw) hacq
    simp only [reverseSpillState, hacq, hb, hd] at h
    rw [if_neg (by simp)] at h
    rw [if_pos trivial] at h
    injection h with h
    obtain ⟨h1, h2⟩ := Prod.mk.injEq _ _ _ _ |>.mp h
    rw [← h2]
    refine ⟨?_, ?_, ?_, ?_⟩
    · rw [show ∀ (sx : MachineState) (e : Event) (u : Nat),
          ((pushEvent sx e).virts u) = sx.virts u from fun _ _ _ => rfl]
      rw [show ∀ (sx : MachineState) (e : Event) (u : Nat),
          ((pushEvent sx e).virts u) = sx.virts u from fun _ _ _ => rfl]
      exact hA.1
    · rw [events_pushEvent, events_pushEvent, numFreeSpills_append, numFreeSpills_append,
        hA.2.1]
      simp [numFreeSpills]
    · rw [events_pushEvent, events_pushEvent, numStores_append, numStores_append, hA.2.2]
      simp [numStores]
    · rw [events_pushEvent, events_pushEvent]
      simp

/-- Witness for C10: the disable-OOL reverse spill of virtual 0 (slot 4) into
x0 on sSpilled keeps backing_storage pointing at slot 4 while emitting exactly
one Spill Arena release and one store. -/
theorem c10_witness :
    (sSpilledOut.virts 0).backingStorage = some 4 ∧
    numFreeSpills sSpilledOut.events = numFreeSpills sSpilled.events + 1 ∧
    numStores sSpilledOut.events = numStores sSpilled.events + 1 ∧
    Event.freeSpillEv 4 (dataSize (sSpilled.virts 0).kind) ∈ sSpilledOut.events :=
  c10_reverseSpillState_disableOOL cgDis sSpilled stPlain 0 (some 1) 4 1 sSpilledOut
    rfl rfl (fun _ hc => Option.noConfusion hc) rfl

/- C3: future-use-count bookkeeping of the two entry points. -/

theorem sameFuc_refl (s : MachineState) : sameFuc s s := fun _ => rfl

theorem sameFuc_trans {a b c : MachineState} (h1 : sameFuc a b) (h2 : sameFuc b c) :
    sameFuc a c := fun u => (h2 u).trans (h1 u)

theorem sameFuc_of_virts_eq {s s' : MachineState} (h : s'.virts = s.virts) :
    sameFuc s s' := fun u => by rw [h]

theorem fuc_updVirtAssigned (s : MachineState) (v : Nat) (p : Option Nat) (u : Nat) :
    ((updVirtAssigned s v p).virts u).futureUseCount = (s.virts u).futureUseCount := by
  unfold updVirtAssigned updVirt upd
  by_cases h : u = v <;> simp [h]

theorem fuc_updVirtBacking (s : MachineState) (v : Nat) (b : Option Nat) (u : Nat) :
    ((updVirtBacking s v b).virts u).futureUseCount = (s.virts u).futureUseCount := by
  unfold updVirtBacking updVirt upd
  by_cases h : u = v <;> simp [h]

theorem virts_setMaxSpillDepth_app (s : MachineState) (loc d u : Nat) :
    (setMaxSpillDepth s loc d).virts u = s.virts u := rfl

theorem virts_spilledList_app (s : MachineState) (l : List Nat) (u : Nat) :
    ({ s with spilledRegisterList := l } : MachineState).virts u = s.virts u := rfl

theorem virts_blockVirt (s : MachineState) (v : Nat) :
    (blockVirt s v).virts = s.virts := by
  unfold blockVirt
  cases (s.virts v).assignedReal <;> rfl

theorem virts_unblockVirt (s : MachineState) (v : Nat) :
    (unblockVirt s v).virts = s.virts := by
  unfold unblockVirt
  cases (s.virts v).assignedReal <;> rfl

theorem virts_coldPush (cg : CG) (s : MachineState) (v : Nat) :
    (coldPush cg s v).virts = s.virts := by
  unfold coldPush
  split <;> rfl

theorem virts_registerCopy (rk : RegKind) (a b : Nat) (s : MachineState) :
    (registerCopy rk a b s).virts = s.virts := by
  cases rk <;> rfl

theorem virts_registerExchange (rk : RegKind) (a b : Nat) (m : Option Nat)
    (s s2 : MachineState) (h : registerExchange rk a b m s = some s2) :
    s2.virts = s.virts := by
  cases rk with
  | GPR =>
    simp only [registerExchange] at h
    injection h with h
    rw [← h]
    rfl
  | FPR =>
    simp only [registerExchange] at h
    cases m with
    | none => exact Option.noConfusion h
    | some mm =>
      injection h with h
      rw [← h]
      rfl

theorem findBestFreeRegister_sameFuc (s : MachineState) (rk : RegKind) (cu : Bool) :
    sameFuc s ((findBestFreeRegister s rk cu).2) :=
  sameFuc_of_virts_eq (findBestFreeRegister_frame s rk cu).1

theorem freeBestRegister_sameFuc (cg : CG) (s : MachineState) (stream : List Instr)
    (vr forced : Option Nat) (b : Nat) (s2 : MachineState)
    (h : freeBestRegister cg s stream vr forced = some (b, s2)) : sameFuc s s2 := by
  rcases hv : fbrVictim s stream (fbrKind s vr) forced with _ | ⟨b0, r⟩
  · simp only [freeBestRegister, hv] at h
    exact Option.noConfusion h
  · rcases ha : fbrAcquire cg s (fbrKind s vr) r with _ | ⟨locr, s1⟩
    · simp only [freeBestRegister, hv, ha] at h
      exact Option.noConfusion h
    · simp only [freeBestRegister, hv, ha] at h
      injection h with h
      obtain ⟨hbb, hs2⟩ := Prod.mk.injEq _ _ _ _ |>.mp h
      rw [← hs2]
      intro u
      rw [fuc_updVirtAssigned, virts_updFile_app, virts_updFile_app, virts_pushEvent_app,
        virts_fbrBookkeep_app, fuc_updVirtBacking,
        congrFun (fbrAcquire_frame cg s _ r locr s1 ha).2.1 u]

theorem rsAcquire_sameFuc (cg : CG) (s : MachineState) (stream : List Instr)
    (v : Nat) (target : Option Nat) (t : Nat) (sA : MachineState)
    (h : rsAcquire cg s stream v target = some (t, sA)) : sameFuc s sA := by
  cases target with
  | some t0 =>
    simp only [rsAcquire] at h
    injection h with h
    obtain ⟨h1, h2⟩ := Prod.mk.injEq _ _ _ _ |>.mp h
    rw [← h2]
    exact sameFuc_refl s
  | none =>
    rcases hf : findBestFreeRegister s (s.virts v).kind false with ⟨o, s1⟩
    have hfr := findBestFreeRegister_frame s (s.virts v).kind false
    rw [hf] at hfr
    cases o with
    | some t1 =>
      simp only [rsAcquire, hf] at h
      injection h with h
      obtain ⟨h1, h2⟩ := Prod.mk.injEq _ _ _ _ |>.mp h
      rw [← h2]
      intro u
      rw [virts_updFile_app, congrFun hfr.1 u]
    | none =>
      rcases hfb : freeBestRegister cg s1 stream (some v) none with _ | ⟨t2, s2⟩
      · simp only [rsAcquire, hf, hfb] at h
        exact Option.noConfusion h
      · simp only [rsAcquire, hf, hfb] at h
        injection h with h
        obtain ⟨h1, h2⟩ := Prod.mk.injEq _ _ _ _ |>.mp h
        rw [← h2]
        have hsf := freeBestRegister_sameFuc cg s1 stream (some v) none t2 s2 hfb
        intro u
        rw [virts_updFile_app, hsf u, congrFun hfr.1 u]

theorem reverseSpillState_sameFuc (cg : CG) (s : MachineState) (stream : List Instr)
    (v : Nat) (target : Option Nat) (t : Nat) (s' : MachineState)
    (h : reverseSpillState cg s stream v target = some (t, s')) : sameFuc s s' := by
  rcases hacq : rsAcquire cg s stream v target with _ | ⟨t0, sA⟩
  · simp only [reverseSpillState, hacq] at h
    exact Option.noConfusion h
  · have hAc := rsAcquire_sameFuc cg s stream v target t0 sA hacq
    simp only [reverseSpillState, hacq] at h
    split at h
    · injection h with h
      obtain ⟨h1, h2⟩ := Prod.mk.injEq _ _ _ _ |>.mp h
      rw [← h2]
      exact hAc
    · split at h
      · exact Option.noConfusion h
      · split at h
        · injection h with h
          obtain ⟨h1, h2⟩ := Prod.mk.injEq _ _ _ _ |>.mp h
          rw [← h2]
          intro u
          rw [virts_pushEvent_app, virts_pushEvent_app]
          exact hAc u
        · injection h with h
          obtain ⟨h1, h2⟩ := Prod.mk.injEq _ _ _ _ |>.mp h
          rw [← h2]
          intro u
          rw [virts_pushEvent_app]
          repeat' split
          all_goals first
            | exact hAc u
            | (simp only [fuc_updVirtBacking, virts_pushEvent_app,
                virts_setMaxSpillDepth_app, virts_spilledList_app]
               exact hAc u)

theorem coerceFinish_sameFuc (s : MachineState) (v t : Nat) :
    sameFuc s (coerceFinish s v t) := by
  intro u
  unfold coerceFinish
  rw [fuc_updVirtAssigned, virts_updFile_app, virts_updFile_app]

theorem coerceTail_sameFuc (cg : CG) (s : MachineState) (stream : List Instr)
    (v rn : Nat) (s' : MachineState) (h : coerceTail cg s stream v rn = some s') :
    sameFuc s s' := by
  rcases hrs : reverseSpillState cg s stream v (some rn) with _ | ⟨t1, s1⟩ <;>
    simp only [coerceTail, hrs] at h
  · split at h
    · exact Option.noConfusion h
    · injection h with h
      rw [← h]
      exact sameFuc_trans (sameFuc_of_virts_eq (virts_coldPush cg s v))
        (coerceFinish_sameFuc _ v rn)
  · split at h
    · injection h with h
      rw [← h]
      exact sameFuc_trans (reverseSpillState_sameFuc cg s stream v (some rn) t1 s1 hrs)
        (coerceFinish_sameFuc s1 v rn)
    · injection h with h
      rw [← h]
      exact sameFuc_trans (sameFuc_of_virts_eq (virts_coldPush cg s v))
        (coerceFinish_sameFuc _ v rn)

theorem coerceSpare_sameFuc (cg : CG) (s : MachineState) (stream : List Instr)
    (v : Nat) (ctv : Option Nat) (rk : RegKind) (cur : Option Nat)
    (spare : Option Nat) (sA : MachineState)
    (h : coerceSpare cg s stream v ctv rk cur = some (spare, sA)) : sameFuc s sA := by
  simp only [coerceSpare] at h
  split at h
  · rcases hf : findBestFreeRegister s rk false with ⟨o, s1⟩
    rw [hf] at h
    have hfr := findBestFreeRegister_frame s rk false
    rw [hf] at hfr
    cases o with
    | some sp =>
      simp only at h
      injection h with h
      obtain ⟨h1, h2⟩ := Prod.mk.injEq _ _ _ _ |>.mp h
      rw [← h2]
      exact sameFuc_of_virts_eq hfr.1
    | none =>
      simp only at h
      rcases hfb : freeBestRegister cg (blockVirt s1 v) stream ctv none with _ | ⟨sp2, s2⟩ <;>
        simp only [hfb] at h
      · exact Option.noConfusion h
      · injection h with h
        obtain ⟨h1, h2⟩ := Prod.mk.injEq _ _ _ _ |>.mp h
        rw [← h2]
        have k1 : sameFuc s s1 := sameFuc_of_virts_eq hfr.1
        have k2 : sameFuc s1 (blockVirt s1 v) :=
          sameFuc_of_virts_eq (virts_blockVirt s1 v)
        have k3 : sameFuc (blockVirt s1 v) s2 :=
          freeBestRegister_sameFuc cg (blockVirt s1 v) stream ctv none sp2 s2 hfb
        have k4 : sameFuc s2 (unblockVirt s2 v) :=
          sameFuc_of_virts_eq (virts_unblockVirt s2 v)
        exact sameFuc_trans (sameFuc_trans (sameFuc_trans k1 k2) k3) k4
  · injection h with h
    obtain ⟨h1, h2⟩ := Prod.mk.injEq _ _ _ _ |>.mp h
    rw [← h2]
    exact sameFuc_refl s

theorem coerceSpareAssigned_sameFuc (s : MachineState) (rk : RegKind) (cur : Option Nat) :
    sameFuc s (coerceSpareAssigned s rk cur).2 := by
  unfold coerceSpareAssigned
  split
  · exact findBestFreeRegister_sameFuc s rk false
  · exact sameFuc_refl s

theorem coerceBlocked_sameFuc (cg : CG) (s : MachineState) (stream : List Instr)
    (v rn : Nat) (rk : RegKind) (cur : Option Nat) (s' : MachineState)
    (h : coerceBlocked cg s stream v rn rk cur = some s') : sameFuc s s' := by
  rcases hsp : coerceSpare cg s stream v ((s.file rn).assignedReg) rk cur with _ | ⟨spare, sA⟩ <;>
    simp only [coerceBlocked, hsp] at h
  · exact Option.noConfusion h
  · have hsA := coerceSpare_sameFuc cg s stream v _ rk cur spare sA hsp
    cases cur with
    | some c =>
      cases hu : (s.file rn).assignedReg with
      | none =>
        simp only [hu] at h
        exact Option.noConfusion h
      | some u0 =>
        simp only [hu] at h
        rcases hex : registerExchange rk rn c spare sA with _ | sB <;> simp only [hex] at h
        · exact Option.noConfusion h
        · injection h with h
          rw [← h]
          have k1 : sameFuc sA sB := sameFuc_of_virts_eq (virts_registerExchange _ _ _ _ _ _ hex)
          refine sameFuc_trans (sameFuc_trans (sameFuc_trans hsA k1) ?_)
            (coerceFinish_sameFuc _ v rn)
          intro w
          rw [fuc_updVirtAssigned, virts_updFile_app, virts_updFile_app]
    | none =>
      cases spare with
      | none =>
        cases hu : (s.file rn).assignedReg with
        | none =>
          simp only [hu] at h
          exact Option.noConfusion h
        | some u0 =>
          simp only [hu] at h
          exact Option.noConfusion h
      | some sp =>
        cases hu : (s.file rn).assignedReg with
        | none =>
          simp only [hu] at h
          exact Option.noConfusion h
        | some u0 =>
          simp only [hu] at h
          refine sameFuc_trans (sameFuc_trans hsA ?_)
            (coerceTail_sameFuc cg _ stream v rn s' h)
          intro w
          rw [virts_updFile_app, fuc_updVirtAssigned, virts_updFile_app,
            congrFun (virts_registerCopy rk rn sp sA) w]

theorem coerceAssigned_sameFuc (cg : CG) (s : MachineState) (stream : List Instr)
    (v rn : Nat) (rk : RegKind) (cur : Option Nat) (s' : MachineState)
    (h : coerceAssigned cg s stream v rn rk cur = some s') : sameFuc s s' := by
  cases cur with
  | some c =>
    simp only [coerceAssigned] at h
    split at h
    · cases hu : (s.file rn).assignedReg with
      | none =>
        simp only [hu] at h
        exact Option.noConfusion h
      | some u0 =>
        simp only [hu] at h
        rcases hex : registerExchange rk rn c (coerceSpareAssigned s rk (some c)).1
            (coerceSpareAssigned s rk (some c)).2 with _ | sB <;> simp only [hex] at h
        · exact Option.noConfusion h
        · injection h with h
          rw [← h]
          refine sameFuc_trans (sameFuc_trans (sameFuc_trans
            (coerceSpareAssigned_sameFuc s rk (some c))
            (sameFuc_of_virts_eq (virts_registerExchange _ _ _ _ _ _ hex))) ?_)
            (coerceFinish_sameFuc _ v rn)
          intro w
          rw [fuc_updVirtAssigned, virts_updFile_app, virts_updFile_app]
    · rcases hfb : freeBestRegister cg (coerceSpareAssigned s rk (some c)).2 stream
          ((s.file rn).assignedReg) (some rn) with _ | ⟨b2, sB⟩ <;> simp only [hfb] at h
      · exact Option.noConfusion h
      · injection h with h
        rw [← h]
        refine sameFuc_trans (sameFuc_trans (sameFuc_trans
          (coerceSpareAssigned_sameFuc s rk (some c))
          (freeBestRegister_sameFuc _ _ _ _ _ _ _ hfb)) ?_)
          (coerceFinish_sameFuc _ v rn)
        intro w
        rw [virts_updFile_app, virts_updFile_app, congrFun (virts_registerCopy rk c rn sB) w]
  | none =>
    simp only [coerceAssigned] at h
    cases hspo : (coerceSpareAssigned s rk none).1 with
    | none =>
      simp only [hspo] at h
      rcases hfb : freeBestRegister cg (coerceSpareAssigned s rk none).2 stream
          ((s.file rn).assignedReg) (some rn) with _ | ⟨b2, sB⟩ <;> simp only [hfb] at h
      · exact Option.noConfusion h
      · exact sameFuc_trans (sameFuc_trans (coerceSpareAssigned_sameFuc s rk none)
          (freeBestRegister_sameFuc _ _ _ _ _ _ _ hfb))
          (coerceTail_sameFuc cg sB stream v rn s' h)
    | some sp =>
      simp only [hspo] at h
      cases hu : (s.file rn).assignedReg with
      | none =>
        simp only [hu] at h
        exact Option.noConfusion h
      | some u0 =>
        simp only [hu] at h
        refine sameFuc_trans (sameFuc_trans (coerceSpareAssigned_sameFuc s rk none) ?_)
          (coerceTail_sameFuc cg _ stream v rn s' h)
        intro w
        rw [fuc_updVirtAssigned, virts_updFile_app, virts_updFile_app,
          congrFun (virts_registerCopy rk rn sp (coerceSpareAssigned s rk none).2) w]

theorem coerceRegisterAssignment_sameFuc (cg : CG) (s : MachineState) (stream : List Instr)
    (v rn : Nat) (s' : MachineState)
    (h : coerceRegisterAssignment cg s stream v rn = some s') : sameFuc s s' := by
  simp only [coerceRegisterAssignment] at h
  split at h
  · injection h with h
    rw [← h]
    exact sameFuc_refl s
  · split at h
    · cases hcur : (s.virts v).assignedReal with
      | none =>
        simp only [hcur] at h
        exact coerceTail_sameFuc cg s stream v rn s' h
      | some c =>
        simp only [hcur] at h
        injection h with h
        rw [← h]
        refine sameFuc_trans ?_ (coerceFinish_sameFuc _ v rn)
        intro w
        rw [virts_updFile_app, virts_updFile_app,
          congrFun (virts_registerCopy ((s.virts v).kind) c rn s) w]
    · split at h
      · exact coerceBlocked_sameFuc cg s stream v rn _ _ s' h
      · split at h
        · exact coerceAssigned_sameFuc cg s stream v rn _ _ s' h
        · injection h with h
          rw [← h]
          exact coerceFinish_sameFuc s v rn

theorem dec_fuc (cg : CG) (s : MachineState) (v : Nat) (s' : MachineState)
    (h : decFutureUseCountAndUnlatch cg s v = some s') :
    (s'.virts v).futureUseCount = (s.virts v).futureUseCount - 1 := by
  simp only [decFutureUseCountAndUnlatch] at h
  split at h
  · exact Option.noConfusion h
  · split at h
    · cases hp : (s.virts v).assignedReal with
      | none =>
        rw [hp] at h
        exact Option.noConfusion h
      | some p =>
        rw [hp] at h
        injection h with h
        rw [← h]
        simp [updVirtAssigned, updVirt, updFile, upd]
    · injection h with h
      rw [← h]
      simp [updVirt, upd]

theorem assignOneRegister_fuc (cg : CG) (s : MachineState) (stream : List Instr)
    (v a : Nat) (s' : MachineState)
    (h : assignOneRegister cg s stream v = some (a, s')) :
    (s'.virts v).futureUseCount = (s.virts v).futureUseCount - 1 := by
  cases har : (s.virts v).assignedReal with
  | some a0 =>
    simp only [assignOneRegister, har] at h
    cases hfa : (s.file a0).assignedReg with
    | none =>
      simp only [hfa] at h
      exact Option.noConfusion h
    | some w =>
      simp only [hfa] at h
      rcases hdec : decFutureUseCountAndUnlatch cg s v with _ | s1 <;> simp only [hdec] at h
      · exact Option.noConfusion h
      · injection h with h
        obtain ⟨h1, h2⟩ := Prod.mk.injEq _ _ _ _ |>.mp h
        rw [← h2]
        exact dec_fuc cg s v s1 hdec
  | none =>
    simp only [assignOneRegister, har] at h
    by_cases hc : (s.virts v).totalUseCount ≠ (s.virts v).futureUseCount
    · rw [if_pos hc] at h
      rcases hrs : reverseSpillState cg s stream v none with _ | ⟨a1, s1⟩ <;>
        simp only [hrs] at h
      · exact Option.noConfusion h
      · split at h
        · exact Option.noConfusion h
        · rename_i t4 hdec
          injection h with h
          obtain ⟨h1, h2⟩ := Prod.mk.injEq _ _ _ _ |>.mp h
          rw [← h2]
          have hd := dec_fuc cg _ v t4 hdec
          rw [virts_updFile_app, virts_updFile_app, fuc_updVirtAssigned] at hd
          rw [hd, reverseSpillState_sameFuc cg s stream v none a1 s1 hrs v]
    · rw [if_neg hc] at h
      rcases hf : findBestFreeRegister s (s.virts v).kind true with ⟨o, s1⟩
      have hsf : (s1.virts v).futureUseCount = (s.virts v).futureUseCount := by
        have hx := findBestFreeRegister_sameFuc s (s.virts v).kind true v
        rw [hf] at hx
        exact hx
      cases o with
      | some a1 =>
        simp only [hf] at h
        split at h
        · exact Option.noConfusion h
        · rename_i t4 hdec
          injection h with h
          obtain ⟨h1, h2⟩ := Prod.mk.injEq _ _ _ _ |>.mp h
          rw [← h2]
          have hd := dec_fuc cg _ v t4 hdec
          rw [virts_updFile_app, virts_updFile_app, fuc_updVirtAssigned,
            congrFun (virts_coldPush cg s1 v) v] at hd
          rw [hd, hsf]
      | none =>
        simp only [hf] at h
        rcases hfb : freeBestRegister cg s1 stream (some v) none with _ | ⟨a2, s2⟩ <;>
          simp only [hfb] at h
        · exact Option.noConfusion h
        · split at h
          · exact Option.noConfusion h
          · rename_i t4 hdec
            injection h with h
            obtain ⟨h1, h2⟩ := Prod.mk.injEq _ _ _ _ |>.mp h
            rw [← h2]
            have hd := dec_fuc cg _ v t4 hdec
            rw [virts_updFile_app, virts_updFile_app, fuc_updVirtAssigned,
              congrFun (virts_coldPush cg s2 v) v] at hd
            rw [hd, freeBestRegister_sameFuc cg s1 stream (some v) none a2 s2 hfb v, hsf]

/-- C3: assignOneRegister always ends by invoking decFutureUseCountAndUnlatch,
decrementing the assigned virtual's future use count by exactly one; but
coerceRegisterAssignment never invokes it — every successful coercion leaves
the future use count of every virtual register unchanged. -/
theorem c3_assign_decrements_coerce_preserves :
    (∀ (cg : CG) (s : MachineState) (stream : List Instr) (v a : Nat) (s' : MachineState),
      assignOneRegister cg s stream v = some (a, s') →
      (s'.virts v).futureUseCount = (s.virts v).futureUseCount - 1) ∧
    (∀ (cg : CG) (s : MachineState) (stream : List Instr) (v rn : Nat) (s' : MachineState),
      coerceRegisterAssignment cg s stream v rn = some s' →
      ∀ u, (s'.virts u).futureUseCount = (s.virts u).futureUseCount) :=
  ⟨fun cg s stream v a s' h => assignOneRegister_fuc cg s stream v a s' h,
   fun cg s stream v rn s' h => coerceRegisterAssignment_sameFuc cg s stream v rn s' h⟩

/-- C3 counterexample: coercing fresh virtual 0 into free register x1 in the
main line succeeds yet leaves its future use count at 5, not 5 - 1 = 4 — so
coerceRegisterAssignment does not end by decrementing the future use count. -/
theorem c3_counterexample :
    (coerceRegisterAssignment cgMain sFresh stPlain 0 2).map
      (fun s' => (s'.virts 0).futureUseCount) = some 5 ∧
    (sFresh.virts 0).futureUseCount - 1 = 4 ∧ (5 : Nat) ≠ 4 :=
  ⟨rfl, rfl, by decide⟩

/-- C3 witness: on sFresh, assignOneRegister yields a state with future use
count 5 - 1 while coerceRegisterAssignment yields one with future use count
still 5. -/
theorem c3_witness :
    assignOneRegister cgMain sFresh stPlain 0 = some (aFreshOut, sFreshOut) ∧
    (sFreshOut.virts 0).futureUseCount = (sFresh.virts 0).futureUseCount - 1 ∧
    coerceRegisterAssignment cgMain sFresh stPlain 0 2 = some sFreshCoerceOut ∧
    (sFreshCoerceOut.virts 0).futureUseCount = (sFresh.virts 0).futureUseCount :=
  ⟨rfl,
   c3_assign_decrements_coerce_preserves.1 cgMain sFresh stPlain 0 aFreshOut sFreshOut rfl,
   rfl,
   c3_assign_decrements_coerce_preserves.2 cgMain sFresh stPlain 0 2 sFreshCoerceOut rfl 0⟩

theorem keeps_updFile_flags (s t : MachineState) (i : Nat) (h : keeps s t) :
    keeps s (updFile t i { t.file i with flags := (s.file i).flags }) := by
  refine ⟨fun j => ?_, h.2⟩
  simp only [updFile, upd]
  by_cases hj : j = i
  · rw [if_pos hj, hj, h.1 i]
  · rw [if_neg hj]
    exact h.1 j

theorem keeps_updFile_state (s t : MachineState) (i : Nat) (h : keeps s t) :
    keeps s (updFile t i { t.file i with state := (s.file i).state }) := by
  refine ⟨fun j => ?_, h.2⟩
  simp only [updFile, upd]
  by_cases hj : j = i
  · rw [if_pos hj, hj, h.1 i]
  · rw [if_neg hj]
    exact h.1 j

theorem keeps_updFile_asn (s t : MachineState) (i : Nat) (h : keeps s t) :
    keeps s (updFile t i { t.file i with assignedReg := (s.file i).assignedReg }) := by
  refine ⟨fun j => ?_, h.2⟩
  simp only [updFile, upd]
  by_cases hj : j = i
  · rw [if_pos hj, hj, h.1 i]
  · rw [if_neg hj]
    exact h.1 j

theorem keeps_restoreClear (s t : MachineState) (asn : Option Nat) (i : Nat)
    (h : keeps s t) : keeps s (restoreClear asn t i) := by
  have hupd : ∀ w p, keeps s (updVirtAssigned t w p) :=
    fun w p => ⟨fun j => h.1 j, fun u => by rw [fuc_updVirtAssigned]; exact h.2 u⟩
  simp only [restoreClear]
  repeat' split
  all_goals first | exact h | exact hupd _ _

theorem keeps_restoreRebind (s t : MachineState) (i : Nat) (h : keeps s t) :
    keeps s (restoreRebind t i) := by
  have hupd : ∀ w p, keeps s (updVirtAssigned t w p) :=
    fun w p => ⟨fun j => h.1 j, fun u => by rw [fuc_updVirtAssigned]; exact h.2 u⟩
  simp only [restoreRebind]
  repeat' split
  all_goals first | exact h | exact hupd _ _

theorem keeps_restorePrune (s t : MachineState) (i : Nat) (h : keeps s t)
    (hwf : ∀ w, (s.file i).state = RegState.Assigned → (s.file i).assignedReg = some w →
      (s.virts w).futureUseCount ≠ 0) :
    keeps s (restorePrune t i) := by
  simp only [restorePrune]
  split
  · rename_i hst
    rw [h.1 i] at hst
    rcases hw : (t.file i).assignedReg with _ | w
    all_goals simp only [hw]
    · exact h
    · have hw' := hw
      rw [h.1 i] at hw'
      rw [if_neg (by rw [h.2 w]; exact hwf w hst hw')]
      exact h
  · exact h

theorem restoreOne_keeps (s t : MachineState) (i : Nat)
    (hwf : ∀ w, (s.file i).state = RegState.Assigned → (s.file i).assignedReg = some w →
      (s.virts w).futureUseCount ≠ 0)
    (h : keeps s t) :
    keeps s (restoreOne (takeRegisterStateSnapShot s) t i) := by
  simp only [restoreOne, takeRegisterStateSnapShot]
  exact keeps_restorePrune s _ i
    (keeps_restoreRebind s _ i
      (keeps_updFile_asn s _ i
        (keeps_restoreClear s _ _ i
          (keeps_updFile_state s _ i
            (keeps_updFile_flags s t i h))))) hwf

theorem restore_fold_keeps (s : MachineState) (l : List Nat)
    (hwf : ∀ i ∈ l, ∀ w, (s.file i).state = RegState.Assigned →
      (s.file i).assignedReg = some w → (s.virts w).futureUseCount ≠ 0) :
    ∀ t, keeps s t → keeps s (l.foldl (restoreOne (takeRegisterStateSnapShot s)) t) := by
  induction l with
  | nil => exact fun t h => h
  | cons a l ih =>
    intro t h
    exact ih (fun i hi => hwf i (List.mem_cons_of_mem a hi)) _
      (restoreOne_keeps s t a (hwf a (List.mem_cons_self a l)) h)

/-- C8: taking a register-state snapshot and immediately restoring it leaves
the register file pointwise identical — state, back-pointer and flags —
provided every Assigned register's virtual has a non-null back-pointer and a
non-zero future use count; without that proviso the restore loop prunes such
registers to Free (see the counterexample). -/
theorem c8_snapshot_restore (s : MachineState)
    (hwf : ∀ i ∈ snapRange, (s.file i).state = RegState.Assigned →
      (s.file i).assignedReg ≠ none ∧
      (s.virts ((s.file i).assignedReg.getD 0)).futureUseCount ≠ 0) :
    ∀ j, (restoreRegisterStateFromSnapShot (takeRegisterStateSnapShot s) s).file j
        = s.file j := by
  have hwf' : ∀ i ∈ snapRange, ∀ w, (s.file i).state = RegState.Assigned →
      (s.file i).assignedReg = some w → (s.virts w).futureUseCount ≠ 0 := by
    intro i hi w hst hw
    have h2 := (hwf i hi hst).2
    rw [hw] at h2
    exact h2
  exact (restore_fold_keeps s snapRange hwf' s ⟨fun j => rfl, fun u => rfl⟩).1

set_option maxRecDepth 20000 in
/-- C8 witness: on sLive (x0 assigned to a virtual with future use count 1)
the snapshot-restore round trip reproduces register x0 exactly. -/
theorem c8_witness :
    (∀ i ∈ snapRange, (sLive.file i).state = RegState.Assigned →
      (sLive.file i).assignedReg ≠ none ∧
      (sLive.virts ((sLive.file i).assignedReg.getD 0)).futureUseCount ≠ 0) ∧
    (restoreRegisterStateFromSnapShot (takeRegisterStateSnapShot sLive) sLive).file 1
      = sLive.file 1 := by
  constructor
  · decide
  · exact c8_snapshot_restore sLive (by decide) 1

set_option maxRecDepth 20000 in
/-- C8 counterexample: on sDead (x0 assigned to a virtual with future use
count 0) the snapshot-restore round trip does not reproduce the file — the
restore loop prunes x0 from Assigned to Free. -/
theorem c8_counterexample :
    ((restoreRegisterStateFromSnapShot (takeRegisterStateSnapShot sDead) sDead).file 1).state
      = RegState.Free ∧
    (sDead.file 1).state = RegState.Assigned ∧
    RegState.Free ≠ RegState.Assigned :=
  ⟨rfl, rfl, by decide⟩
